import Mathlib

/-!
# LbParseLib: the LinuxBoot payload-configuration parser

A shallow embedding of `UefiPayloadPkg/Library/LbParseLib/LbParseLib.c`
(with the types and constants of `UefiPayloadPkg/Include/Linuxboot.h`) and
theorems about the memory-range normalizer, the command-line tokenizer, the
option value-list parser and the three extraction calls `ParseMemoryInfo`,
`ParseSystemTable` and `ParseSerialInfo`.

Conventions of the embedding.
* `UINTN` / `UINT64` values are natural numbers; every arithmetic result is
  reduced modulo `2 ^ 64` where the C code can wrap.
* A `const char *` cursor is the list of characters from the cursor to the
  end of the buffer.  Reading at the end of the list yields NUL, so the list
  end plays the role of the terminating NUL; an explicit NUL character inside
  the list terminates the C string earlier, exactly as in C.
* An output parameter becomes a component of the returned value.
* A call that does not return (the dead loop of `GetUefiPayLoadConfig`) has
  the result `none`.
-/

namespace LbParse

/-! ## Constants -/

/-- The modulus of `UINTN` / `UINT64` arithmetic. -/
def UINT64_MOD : Nat := 2 ^ 64

/-- The constant `MAX_UINT64`. -/
def MAX_UINT64 : Nat := 2 ^ 64 - 1

/-- The constant `SIZE_4KB`. -/
def SIZE_4KB : Nat := 0x1000

/-- The constant `LINUXBOOT_MEM_RAM` of `Linuxboot.h`. -/
def LINUXBOOT_MEM_RAM : Int := 1

/-- The constant `LINUXBOOT_MEM_RESERVED` of `Linuxboot.h`. -/
def LINUXBOOT_MEM_RESERVED : Int := 5

/-- Unsigned 64-bit subtraction `a - b` of two values below `2 ^ 64`. -/
def subU64 (a b : Nat) : Nat := (a + UINT64_MOD - b) % UINT64_MOD

/-- Unsigned 64-bit addition `a + b`. -/
def addU64 (a b : Nat) : Nat := (a + b) % UINT64_MOD

/-! ## Memory range normalizer -/

/-- Modelled from the spec: the macro `ALIGN_VALUE` is not part of the
sources at hand.  The spec says "Align `start` up to the next 4 KiB boundary
and `end` up to the next 4 KiB boundary"; the result is a `UINTN`, hence
reduced modulo `2 ^ 64`. -/
def ALIGN_VALUE (Value Alignment : Nat) : Nat :=
  ((Value + (Alignment - 1)) / Alignment * Alignment) % UINT64_MOD

/-- Modelled from the spec: the type `MEMROY_MAP_ENTRY` is declared outside
the sources at hand.  The spec gives the output record as
`MemoryRange{Base:u64, Size:u64, Type, Flag}`; the field `Type_` (`Type` in
the C source, a reserved word here) holds the `type` argument as passed. -/
structure MEMROY_MAP_ENTRY where
  Base : Nat
  Size : Nat
  Type_ : Int
  Flag : Nat
  deriving DecidableEq, Repr

/-- The function `AddMemoryRange`.  The value returned is the entry handed to
`MemInfoCallback`, which is called exactly once. -/
def AddMemoryRange (start end_ : Nat) (type : Int) : MEMROY_MAP_ENTRY :=
  let AlignedStart := ALIGN_VALUE start SIZE_4KB
  let AlignedEnd := ALIGN_VALUE end_ SIZE_4KB
  let AlignedStart :=
    if AlignedStart > start ∧ type ≠ LINUXBOOT_MEM_RAM then subU64 AlignedStart SIZE_4KB
    else AlignedStart
  let AlignedEnd :=
    if AlignedEnd > addU64 end_ 1 ∧ type = LINUXBOOT_MEM_RAM then subU64 AlignedEnd SIZE_4KB
    else AlignedEnd
  { Base := AlignedStart
    Size := subU64 AlignedEnd AlignedStart
    Type_ := type
    Flag := 0 }

/-! ## Characters and cursors -/

/-- The NUL character that terminates a C string. -/
def NUL : Char := Char.ofNat 0

/-- The character under a cursor, `*s`: the head of the list, NUL at its end. -/
def peek (s : List Char) : Char := s.headD NUL

/-- The function `isspace` of `LbParseLib.c`: space, tab or newline. -/
def isspace (c : Char) : Bool := c == ' ' || c == '\t' || c == '\n'

/-! ## Integer lexer -/

/-- Modelled from the spec: `InternalAsciiIsDecimalDigitCharacter` (BaseLib) is
not part of the sources at hand; a decimal digit is one of `0` .. `9`. -/
def InternalAsciiIsDecimalDigitCharacter (c : Char) : Bool :=
  decide ('0' ≤ c) && decide (c ≤ '9')

/-- Modelled from the spec: `InternalBaseLibAsciiToUpper` (BaseLib) is not part
of the sources at hand; it maps `a` .. `z` to `A` .. `Z` and leaves every other
character alone. -/
def InternalBaseLibAsciiToUpper (c : Char) : Char :=
  if 'a' ≤ c ∧ c ≤ 'z' then Char.ofNat (c.toNat - ('a'.toNat - 'A'.toNat)) else c

/-- Modelled from the spec: `InternalAsciiIsHexaDecimalDigitCharacter`
(BaseLib) is not part of the sources at hand; a hexadecimal digit is a decimal
digit or one of `A` .. `F`, `a` .. `f`. -/
def InternalAsciiIsHexaDecimalDigitCharacter (c : Char) : Bool :=
  InternalAsciiIsDecimalDigitCharacter c ||
    (decide ('A' ≤ c) && decide (c ≤ 'F')) || (decide ('a' ≤ c) && decide (c ≤ 'f'))

/-- Modelled from the spec: `InternalAsciiHexCharToUintn` (BaseLib) is not part
of the sources at hand; the numeric value of a hexadecimal digit. -/
def InternalAsciiHexCharToUintn (c : Char) : Nat :=
  if InternalAsciiIsDecimalDigitCharacter c then c.toNat - '0'.toNat
  else 10 + (InternalBaseLibAsciiToUpper c).toNat - 'A'.toNat

/-- The digit loop of `AsciiStrDecimalToUint64S`: accumulates decimal digits
into `Data`; on a digit that would push the value past `MAX_UINT64` it stops
there with `MAX_UINT64`. -/
def decimalDigits : List Char → Nat → Nat × List Char
  | [], Data => (Data, [])
  | c :: cs, Data =>
    if InternalAsciiIsDecimalDigitCharacter c then
      if Data > (MAX_UINT64 - (c.toNat - '0'.toNat)) / 10 then (MAX_UINT64, c :: cs)
      else decimalDigits cs (Data * 10 + (c.toNat - '0'.toNat))
    else (Data, c :: cs)

/-- Modelled from the spec: `AsciiStrDecimalToUint64S` (BaseLib) is not part of
the sources at hand.  The spec (Integer Lexer) says: it parses one unsigned
64-bit decimal integer from a cursor and reports the value and the first
unconsumed character position, with no sign handling.  The corner cases the
spec leaves open follow the interface contract of the BaseLib function:
leading pad characters (space, tab) and leading zeros are skipped, a text
without digits gives 0, and a value that does not fit 64 bits gives
`MAX_UINT64` with the end position at the offending digit.  The result is
`(x, end)`. -/
def AsciiStrDecimalToUint64S (String : List Char) : Nat × List Char :=
  let String := String.dropWhile (fun c => c == ' ' || c == '\t')
  let String := String.dropWhile (fun c => c == '0')
  decimalDigits String 0

/-- The digit loop of `AsciiStrHexToUint64S`, the hexadecimal twin of
`decimalDigits`. -/
def hexDigits : List Char → Nat → Nat × List Char
  | [], Data => (Data, [])
  | c :: cs, Data =>
    if InternalAsciiIsHexaDecimalDigitCharacter c then
      if Data > (MAX_UINT64 - InternalAsciiHexCharToUintn c) / 16 then (MAX_UINT64, c :: cs)
      else hexDigits cs (Data * 16 + InternalAsciiHexCharToUintn c)
    else (Data, c :: cs)

/-- Modelled from the spec: `AsciiStrHexToUint64S` (BaseLib) is not part of the
sources at hand.  The spec (Integer Lexer) says: it parses one unsigned 64-bit
`0x`-prefixed hexadecimal integer from a cursor and reports the value and the
first unconsumed character position.  The corner cases follow the interface
contract of the BaseLib function, as for `AsciiStrDecimalToUint64S`: pad
characters and leading zeros are skipped, an `x` or `X` is accepted only right
after a zero (otherwise the value is 0 and the end position is the start), and
an overflowing value gives `MAX_UINT64` at the offending digit.  `parse_int`
calls it only on a cursor that starts with `0x`. -/
def AsciiStrHexToUint64S (String : List Char) : Nat × List Char :=
  let Start := String
  let Padded := String.dropWhile (fun c => c == ' ' || c == '\t')
  let String := Padded.dropWhile (fun c => c == '0')
  if InternalBaseLibAsciiToUpper (peek String) = 'X' then
    if String.length = Padded.length then (0, Start)
    else hexDigits String.tail 0
  else hexDigits String 0

/-- The function `parse_int`: hexadecimal when the text starts with `0x`,
decimal otherwise.  The result is `(x, end)`. -/
def parse_int (s : List Char) : Nat × List Char :=
  if peek s = '0' ∧ peek s.tail = 'x' then AsciiStrHexToUint64S s
  else AsciiStrDecimalToUint64S s

/-! ## Command-line tokenizer -/

/-- The function `cmdline_next`.  `none` is the NULL return; `some (c, option)`
is the returned cursor `c` together with the token start stored in `*option`.
The cursor argument is never NULL here: the loops of this file stop at the
first NULL return. -/
def cmdline_next (cmdline : List Char) : Option (List Char × List Char) :=
  if peek cmdline = NUL then none
  else
    let cmdline := cmdline.dropWhile isspace
    if peek cmdline = NUL then none
    else
      let option := cmdline
      let cmdline := cmdline.dropWhile (fun c => !isspace c && c != NUL)
      some (cmdline, option)

/-- The loop `while ((cmdline = cmdline_next(cmdline, &option)))` of the
callers, run for at most `fuel` iterations: the list of `(option, cmdline)`
pairs, token start and cursor after the token, in the order the loop body
sees them. -/
def cmdline_loop : Nat → List Char → List (List Char × List Char)
  | 0, _ => []
  | fuel + 1, cmdline =>
    match cmdline_next cmdline with
    | none => []
    | some (next, option) => (option, next) :: cmdline_loop fuel next

/-- The characters of the token that starts at `option` and ends right before
the cursor `next` (the pointer difference `next - option` many characters). -/
def tokenText (t : List Char × List Char) : List Char :=
  t.1.take (t.1.length - t.2.length)

/-- The tokens of a whole buffer: the loop started at the buffer start, with
fuel for more iterations than the buffer has characters. -/
def cmdline_tokens (cmdline : List Char) : List (List Char) :=
  (cmdline_loop (cmdline.length + 1) cmdline).map tokenText

/-- The C string held in a buffer: the characters before the first NUL. -/
def cstring (b : List Char) : List Char := b.takeWhile (fun c => c != NUL)

/-- The maximal runs of non-whitespace characters of a text, in order: the
text is cut at every whitespace character and the empty pieces are dropped
(the reference the tokenizer is compared with). -/
def nonSpaceRuns (s : List Char) : List (List Char) :=
  (s.splitOnP isspace).filter (fun t => !t.isEmpty)

/-! ## Option value-list parser -/

/-- The first loop of `cmdline_ints`: `some s` is the cursor right after the
first `=`, `none` says that a NUL or a whitespace came first (the code then
resets `s` to `option`). -/
def cmdline_ints_skip : List Char → Option (List Char)
  | [] => none
  | c :: s =>
    if c = '=' then some s
    else if c = NUL ∨ isspace c then none
    else cmdline_ints_skip s

/-- The `for` loop of `cmdline_ints` with `n` iterations left (`n = max - i`),
loop counter `i`, cursor `s` and array contents `args`.  The result is the
returned count together with the final array contents.  A store past the end
of `args` is dropped (callers pass arrays of `max` elements). -/
def cmdline_ints_for : Nat → Nat → List Char → List Nat → Int × List Nat
  | 0, _, _, args => (-1, args)
  | n + 1, i, s, args =>
    let r := parse_int s
    let args := args.set i r.1
    let e := r.2
    if peek e = NUL ∨ isspace (peek e) then ((i : Int) + 1, args)
    else if peek e ≠ ',' then (if i = 0 then 0 else -1, args)
    else cmdline_ints_for n (i + 1) e.tail args

/-- The function `cmdline_ints`: the returned count and the contents of `args`
after the call. -/
def cmdline_ints (option : List Char) (args : List Nat) (max : Int) : Int × List Nat :=
  let s := (cmdline_ints_skip option).getD option
  cmdline_ints_for max.toNat 0 s args

/-- The reference value of a decimal digit string. -/
def decimalValue (v : List Char) : Nat :=
  v.foldl (fun d c => d * 10 + (c.toNat - '0'.toNat)) 0

/-- The reference value of a hexadecimal digit string (without the `0x`). -/
def hexValue (v : List Char) : Nat :=
  v.foldl (fun d c => d * 16 + InternalAsciiHexCharToUintn c) 0

/-- A non-empty string of decimal digits. -/
def isDecimalText (v : List Char) : Bool :=
  !v.isEmpty && v.all InternalAsciiIsDecimalDigitCharacter

/-- The text `0x` followed by a non-empty string of hexadecimal digits. -/
def isHexText (v : List Char) : Bool :=
  match v with
  | '0' :: 'x' :: h => !h.isEmpty && h.all InternalAsciiIsHexaDecimalDigitCharacter
  | _ => false

/-- The reference value of a value text: hexadecimal after `0x`, decimal
otherwise. -/
def valueOf (v : List Char) : Nat :=
  match v with
  | '0' :: 'x' :: h => hexValue h
  | _ => decimalValue v

/-- A well-formed value: a non-empty decimal digit string, or `0x` followed by
hexadecimal digits, whose value is below `2 ^ 64`. -/
def wellFormedValue (v : List Char) : Bool :=
  (isDecimalText v || isHexText v) && decide (valueOf v < 2 ^ 64)

/-- A key: text with no `=`, no NUL and no whitespace in it. -/
def isKey (key : List Char) : Bool :=
  key.all (fun c => c != '=' && c != NUL && !isspace c)

/-- A character that ends a value: the separator `,`, NUL or whitespace. -/
def isValueEnd (c : Char) : Bool := c == ',' || c == NUL || isspace c

/-- The array `args` after the values `vals` have been stored at the indices
`i`, `i + 1`, ... in turn. -/
def storeValues : Nat → List Nat → List Nat → List Nat
  | _, [], args => args
  | i, x :: xs, args => storeValues (i + 1) xs (args.set i x)

/-! ## Configuration blob and extraction API -/

/-- The constant `UEFI_PAYLOAD_CONFIG_VERSION1` of `Linuxboot.h`. -/
def UEFI_PAYLOAD_CONFIG_VERSION1 : Nat := 1

/-- The constant `UEFI_PAYLOAD_CONFIG_VERSION2` of `Linuxboot.h`, the bytes
`LnxBoot1` read as a little-endian 64-bit number. -/
def UEFI_PAYLOAD_CONFIG_VERSION2 : Nat := 0x31746f6f42786e4c

/-- The struct `SerialPortConfig` of `Linuxboot.h` (all fields `UINT32`). -/
structure SerialPortConfig where
  Type_ : Nat
  BaseAddr : Nat
  Baud : Nat
  RegWidth : Nat
  InputHertz : Nat
  UartPciAddr : Nat
  deriving DecidableEq, Repr

/-- The struct `MemoryMapEntry` of `Linuxboot.h` (`Start`, `End` are `UINT64`,
`Type` is `UINT32`). -/
structure MemoryMapEntry where
  Start : Nat
  End : Nat
  Type_ : Nat
  deriving DecidableEq, Repr

/-- The struct `UefiPayloadConfigV1` of `Linuxboot.h`.  The trailing array
`MemoryMapEntries[0]` is the memory after the struct, read by index. -/
structure UefiPayloadConfigV1 where
  AcpiBase : Nat
  AcpiSize : Nat
  SmbiosBase : Nat
  SmbiosSize : Nat
  SerialConfig : SerialPortConfig
  NumMemoryMapEntries : Nat
  MemoryMapEntries : Nat → MemoryMapEntry

/-- The struct `UefiPayloadConfig` of `Linuxboot.h`: the version tag and the
two views of the union that follows it, the binary struct `config.v1` and the
text `config.v2.cmdline`. -/
structure UefiPayloadConfig where
  Version : Nat
  v1 : UefiPayloadConfigV1
  cmdline : List Char

/-- Modelled from the spec: the type `SYSTEM_TABLE_INFO` is declared outside
the sources at hand.  The spec gives the output record as
`SystemTableInfo: AcpiBase, AcpiSize, SmbiosBase, SmbiosSize: u64`; the field
names are those the code assigns. -/
structure SYSTEM_TABLE_INFO where
  AcpiTableBase : Nat
  AcpiTableSize : Nat
  SmbiosTableBase : Nat
  SmbiosTableSize : Nat
  deriving DecidableEq, Repr

/-- Modelled from the spec: the type `SERIAL_PORT_INFO` is declared outside the
sources at hand.  The spec gives the output record as `SerialPortInfo: Type,
BaseAddr, Baud, RegWidth, InputHertz, UartPciAddr`, without widths; the
fields are taken to be 32 bits wide, like the `SerialPortConfig` fields of
`Linuxboot.h` that are copied into them. -/
structure SERIAL_PORT_INFO where
  Type_ : Nat
  BaseAddr : Nat
  Baud : Nat
  RegWidth : Nat
  InputHertz : Nat
  UartPciAddr : Nat
  deriving DecidableEq, Repr

/-- The status codes the extraction API can return. -/
inductive RETURN_STATUS where
  | RETURN_SUCCESS
  | RETURN_NOT_FOUND
  deriving DecidableEq, Repr

/-- Conversion of an unsigned value to the C type `int` (32 bits, two's
complement), as done when a `UINT32` or `uint64_t` is passed for the
parameter `int type` of `AddMemoryRange`. -/
def toInt32 (x : Nat) : Int :=
  if x % 2 ^ 32 < 2 ^ 31 then ((x % 2 ^ 32 : Nat) : Int)
  else ((x % 2 ^ 32 : Nat) : Int) - 2 ^ 32

/-- Conversion of a `uint64_t` to `UINT32`, as done when an element of `args`
is stored into a field of `SERIAL_PORT_INFO`. -/
def toUInt32 (x : Nat) : Nat := x % 2 ^ 32

/-- Modelled from the spec: `AsciiStrnCmp` (BaseLib), the `strncmp` of
`LbParseLib.c`, is not part of the sources at hand.  The spec says the
tokens are recognized by a case-sensitive `key=` prefix match; this is the
usual bounded string comparison: 0 when `Length` is 0, otherwise it walks
both strings while neither is at its NUL, the characters agree and more than
one character is left to compare, and returns the difference of the two
characters it stops at. -/
def AsciiStrnCmp : List Char → List Char → Nat → Int
  | _, _, 0 => 0
  | FirstString, SecondString, Length + 1 =>
    if peek FirstString ≠ NUL ∧ peek SecondString ≠ NUL ∧
        peek FirstString = peek SecondString ∧ Length + 1 > 1 then
      AsciiStrnCmp FirstString.tail SecondString.tail Length
    else ((peek FirstString).toNat : Int) - ((peek SecondString).toNat : Int)

/-- The macro `strncmp(a,b,n)` of `LbParseLib.c`. -/
def strncmp (a b : List Char) (n : Nat) : Int := AsciiStrnCmp a b n

/-- The function `GetUefiPayLoadConfig`, given the contents `config` of the
memory at `PcdPayloadFdMemBase - SIZE_64KB`.  `some config` is the returned
pointer (never NULL); `none` says that the function does not return: it ends
in `CpuDeadLoop ()` and `while(1)`. -/
def GetUefiPayLoadConfig (config : UefiPayloadConfig) : Option UefiPayloadConfig :=
  if config.Version = UEFI_PAYLOAD_CONFIG_VERSION1
      ∨ config.Version = UEFI_PAYLOAD_CONFIG_VERSION2 then some config
  else none

/-- The token starts `option` that the body of the loop
`while ((cmdline = cmdline_next(cmdline, &option)))` sees, in order, with fuel
for more iterations than the buffer has characters. -/
def cmdline_options (cmdline : List Char) : List (List Char) :=
  (cmdline_loop (cmdline.length + 1) cmdline).map (fun t => t.1)

/-- The `for` loop of the V1 branch of `ParseMemoryInfo` with `n` iterations
left and loop counter `i`: the entries handed to the callback, in order.  The
counter is an `int`; it agrees with the natural number `i` as long as
`NumMemoryMapEntries` is below `2 ^ 31`. -/
def ParseMemoryInfo_v1_for (config1 : UefiPayloadConfigV1) : Nat → Nat → List MEMROY_MAP_ENTRY
  | 0, _ => []
  | n + 1, i =>
    let entry := config1.MemoryMapEntries i
    AddMemoryRange entry.Start entry.End (toInt32 entry.Type_)
      :: ParseMemoryInfo_v1_for config1 n (i + 1)

/-- The body of the `while` loop of the V2 branch of `ParseMemoryInfo` for one
token start `option`: the state is the array `args` and the entries handed to
the callback so far. -/
def ParseMemoryInfo_v2_body (st : List Nat × List MEMROY_MAP_ENTRY) (option : List Char) :
    List Nat × List MEMROY_MAP_ENTRY :=
  if strncmp option "mem=".toList 4 ≠ 0 then st
  else
    let r := cmdline_ints option st.1 3
    if r.1 ≠ 3 then (r.2, st.2)
    else
      let start := r.2.getD 0 0
      let e := r.2.getD 1 0
      let type := r.2.getD 2 0
      (r.2, st.2 ++ [AddMemoryRange start e (toInt32 type)])

/-- The function `ParseMemoryInfo`: `none` when `GetUefiPayLoadConfig` does
not return, otherwise the returned status and the entries handed to
`MemInfoCallback`, in call order.  The local array `args` is not initialized
in C; its elements are read only after `cmdline_ints` has stored all three,
and it starts here as zeros. -/
def ParseMemoryInfo (blob : UefiPayloadConfig) :
    Option (RETURN_STATUS × List MEMROY_MAP_ENTRY) :=
  match GetUefiPayLoadConfig blob with
  | none => none
  | some config =>
    if config.Version = UEFI_PAYLOAD_CONFIG_VERSION1 then
      some (RETURN_STATUS.RETURN_SUCCESS,
        ParseMemoryInfo_v1_for config.v1 config.v1.NumMemoryMapEntries 0)
    else if config.Version = UEFI_PAYLOAD_CONFIG_VERSION2 then
      some (RETURN_STATUS.RETURN_SUCCESS,
        ((cmdline_options config.cmdline).foldl ParseMemoryInfo_v2_body
          (List.replicate 3 0, [])).2)
    else some (RETURN_STATUS.RETURN_SUCCESS, [])

/-- The `SMBIOS=` part of the loop body of `ParseSystemTable`. -/
def ParseSystemTable_smbios (st : SYSTEM_TABLE_INFO × List Nat) (option : List Char) :
    SYSTEM_TABLE_INFO × List Nat :=
  if strncmp option "SMBIOS=".toList 7 = 0 then
    let r := cmdline_ints option st.2 2
    let count := r.1
    if count < 0 then (st.1, r.2)
    else
      let info := st.1
      let info := if count > 0 then { info with SmbiosTableBase := r.2.getD 0 0 } else info
      let info := if count > 1 then { info with SmbiosTableSize := r.2.getD 1 0 } else info
      (info, r.2)
  else st

/-- The body of the `while` loop of the V2 branch of `ParseSystemTable` for one
token start `option`: the state is the output struct and the array `args`.  A
parse error in the `ACPI20=` part goes on to the next token (`continue`). -/
def ParseSystemTable_v2_body (st : SYSTEM_TABLE_INFO × List Nat) (option : List Char) :
    SYSTEM_TABLE_INFO × List Nat :=
  if strncmp option "ACPI20=".toList 7 = 0 then
    let r := cmdline_ints option st.2 2
    let count := r.1
    if count < 0 then (st.1, r.2)
    else
      let info := st.1
      let info := if count > 0 then { info with AcpiTableBase := r.2.getD 0 0 } else info
      let info := if count > 1 then { info with AcpiTableSize := r.2.getD 1 0 } else info
      ParseSystemTable_smbios (info, r.2) option
  else ParseSystemTable_smbios st option

/-- The function `ParseSystemTable`, given the contents of `*SystemTableInfo`
before the call: `none` when `GetUefiPayLoadConfig` does not return, otherwise
the returned status and the struct after the call.  The local array `args` is
not initialized in C; an element is read only after `cmdline_ints` has stored
it, and it starts here as zeros. -/
def ParseSystemTable (blob : UefiPayloadConfig) (SystemTableInfo : SYSTEM_TABLE_INFO) :
    Option (RETURN_STATUS × SYSTEM_TABLE_INFO) :=
  match GetUefiPayLoadConfig blob with
  | none => none
  | some config =>
    if config.Version = UEFI_PAYLOAD_CONFIG_VERSION1 then
      let config1 := config.v1
      some (RETURN_STATUS.RETURN_SUCCESS,
        { AcpiTableBase := config1.AcpiBase
          AcpiTableSize := config1.AcpiSize
          SmbiosTableBase := config1.SmbiosBase
          SmbiosTableSize := config1.SmbiosSize })
    else if config.Version = UEFI_PAYLOAD_CONFIG_VERSION2 then
      some (RETURN_STATUS.RETURN_SUCCESS,
        ((cmdline_options config.cmdline).foldl ParseSystemTable_v2_body
          (SystemTableInfo, List.replicate 2 0)).1)
    else some (RETURN_STATUS.RETURN_SUCCESS, SystemTableInfo)

/-- The body of the `while` loop of the V2 branch of `ParseSerialInfo` for one
token start `option`: the state is the output struct and the array `args`. -/
def ParseSerialInfo_v2_body (st : SERIAL_PORT_INFO × List Nat) (option : List Char) :
    SERIAL_PORT_INFO × List Nat :=
  if strncmp option "serial=".toList 7 ≠ 0 then st
  else
    let r := cmdline_ints option st.2 6
    let count := r.1
    if count < 0 then (st.1, r.2)
    else
      let info := st.1
      let info := if count > 0 then { info with Baud := toUInt32 (r.2.getD 0 0) } else info
      let info := if count > 1 then { info with BaseAddr := toUInt32 (r.2.getD 1 0) } else info
      let info := if count > 2 then { info with RegWidth := toUInt32 (r.2.getD 2 0) } else info
      let info := if count > 3 then { info with Type_ := toUInt32 (r.2.getD 3 0) } else info
      let info := if count > 4 then { info with InputHertz := toUInt32 (r.2.getD 4 0) } else info
      let info := if count > 5 then { info with UartPciAddr := toUInt32 (r.2.getD 5 0) } else info
      (info, r.2)

/-- The function `ParseSerialInfo`, given the contents of `*SerialPortInfo`
before the call: `none` when `GetUefiPayLoadConfig` does not return, otherwise
the returned status and the struct after the call.  The six fields are first
set to the defaults, so the previous contents play no part. -/
def ParseSerialInfo (blob : UefiPayloadConfig) (SerialPortInfo : SERIAL_PORT_INFO) :
    Option (RETURN_STATUS × SERIAL_PORT_INFO) :=
  let SerialPortInfo : SERIAL_PORT_INFO :=
    { SerialPortInfo with
      BaseAddr := 0x3f8
      RegWidth := 1
      Type_ := 1
      Baud := 115200
      InputHertz := 1843200
      UartPciAddr := 0 }
  match GetUefiPayLoadConfig blob with
  | none => none
  | some config =>
    if config.Version = UEFI_PAYLOAD_CONFIG_VERSION1 then
      let config1 := config.v1
      some (RETURN_STATUS.RETURN_SUCCESS,
        { SerialPortInfo with
          BaseAddr := config1.SerialConfig.BaseAddr
          RegWidth := config1.SerialConfig.RegWidth
          Type_ := config1.SerialConfig.Type_
          Baud := config1.SerialConfig.Baud
          InputHertz := config1.SerialConfig.InputHertz
          UartPciAddr := config1.SerialConfig.UartPciAddr })
    else if config.Version = UEFI_PAYLOAD_CONFIG_VERSION2 then
      some (RETURN_STATUS.RETURN_SUCCESS,
        ((cmdline_options config.cmdline).foldl ParseSerialInfo_v2_body
          (SerialPortInfo, List.replicate 6 0)).1)
    else some (RETURN_STATUS.RETURN_SUCCESS, SerialPortInfo)

/-- A V2 blob holding the command line `cmdline` (the binary view of the union
is not looked at in the V2 branches). -/
def v2Blob (cmdline : List Char) : UefiPayloadConfig :=
  { Version := UEFI_PAYLOAD_CONFIG_VERSION2
    v1 :=
      { AcpiBase := 0, AcpiSize := 0, SmbiosBase := 0, SmbiosSize := 0
        SerialConfig :=
          { Type_ := 0, BaseAddr := 0, Baud := 0, RegWidth := 0, InputHertz := 0,
            UartPciAddr := 0 }
        NumMemoryMapEntries := 0
        MemoryMapEntries := fun _ => { Start := 0, End := 0, Type_ := 0 } }
    cmdline := cmdline }

/-- The count `cmdline_ints` returns and the values it stores at the indices
`i`, `i + 1`, ..., computed without the array (the `for` loop with `n`
iterations left, counter `i` and cursor `s`). -/
def cmdline_ints_values : Nat → Nat → List Char → Int × List Nat
  | 0, _, _ => (-1, [])
  | n + 1, i, s =>
    let r := parse_int s
    let e := r.2
    if peek e = NUL ∨ isspace (peek e) then ((i : Int) + 1, [r.1])
    else if peek e ≠ ',' then (if i = 0 then 0 else -1, [r.1])
    else ((cmdline_ints_values n (i + 1) e.tail).1, r.1 :: (cmdline_ints_values n (i + 1) e.tail).2)

/-- The range the V2 branch of `ParseMemoryInfo` emits for the token start
`option`, if any: the token begins with `mem=`, `cmdline_ints` returns 3 for
it, and the range is the normalization of the three values stored. -/
def memRangeOf (option : List Char) : Option MEMROY_MAP_ENTRY :=
  let r := cmdline_ints option [0, 0, 0] 3
  if "mem=".toList <+: option ∧ r.1 = 3 then
    some (AddMemoryRange (r.2.getD 0 0) (r.2.getD 1 0) (toInt32 (r.2.getD 2 0)))
  else none

/-! ## Theorems: memory range normalizer -/

/-- The normalizer unfolded into plain arithmetic. -/
theorem AddMemoryRange_eq (start end_ : Nat) (type : Int) :
    AddMemoryRange start end_ type =
      { Base :=
          if ((start + 4095) / 4096 * 4096) % 2 ^ 64 > start ∧ type ≠ 1 then
            (((start + 4095) / 4096 * 4096) % 2 ^ 64 + 2 ^ 64 - 4096) % 2 ^ 64
          else ((start + 4095) / 4096 * 4096) % 2 ^ 64
        Size :=
          ((if ((end_ + 4095) / 4096 * 4096) % 2 ^ 64 > (end_ + 1) % 2 ^ 64 ∧ type = 1 then
              (((end_ + 4095) / 4096 * 4096) % 2 ^ 64 + 2 ^ 64 - 4096) % 2 ^ 64
            else ((end_ + 4095) / 4096 * 4096) % 2 ^ 64) + 2 ^ 64 -
            (if ((start + 4095) / 4096 * 4096) % 2 ^ 64 > start ∧ type ≠ 1 then
              (((start + 4095) / 4096 * 4096) % 2 ^ 64 + 2 ^ 64 - 4096) % 2 ^ 64
            else ((start + 4095) / 4096 * 4096) % 2 ^ 64)) % 2 ^ 64
        Type_ := type
        Flag := 0 } := by
  simp only [AddMemoryRange, ALIGN_VALUE, SIZE_4KB, LINUXBOOT_MEM_RAM, subU64, addU64,
    UINT64_MOD]

/-- C1: for every start, end and type, the emitted range has `Base` divisible
by 4096 and `Base + Size` (modulo `2 ^ 64`) divisible by 4096. -/
theorem AddMemoryRange_aligned (start end_ : Nat) (type : Int) :
    (AddMemoryRange start end_ type).Base % 4096 = 0 ∧
    ((AddMemoryRange start end_ type).Base + (AddMemoryRange start end_ type).Size)
      % 2 ^ 64 % 4096 = 0 := by
  rw [AddMemoryRange_eq]
  simp only
  constructor
  · split_ifs <;> omega
  · split_ifs <;> omega

/-- C2: for a type other than RAM and start, end at most `2 ^ 64 - 4096`, the
emitted `Base` is `start` rounded down to a multiple of 4096 and `Base + Size`
(modulo `2 ^ 64`) is `end` rounded up to a multiple of 4096; when
`start ≤ end` the sum does not wrap and the range covers `[start, end)`.  In
particular `(0x1001, 0x2000, Reserved)` gives `Base = 0x1000`, `Size = 0x1000`. -/
theorem AddMemoryRange_nonRam_widens (start end_ : Nat) (type : Int)
    (htype : type ≠ LINUXBOOT_MEM_RAM)
    (hstart : start ≤ 2 ^ 64 - 4096) (hend : end_ ≤ 2 ^ 64 - 4096) :
    (AddMemoryRange start end_ type).Base = start / 4096 * 4096 ∧
    ((AddMemoryRange start end_ type).Base + (AddMemoryRange start end_ type).Size)
      % 2 ^ 64 = (end_ + 4095) / 4096 * 4096 ∧
    (start ≤ end_ →
      (AddMemoryRange start end_ type).Base + (AddMemoryRange start end_ type).Size
        = (end_ + 4095) / 4096 * 4096 ∧
      (AddMemoryRange start end_ type).Base ≤ start ∧
      end_ ≤ (AddMemoryRange start end_ type).Base + (AddMemoryRange start end_ type).Size) ∧
    AddMemoryRange 0x1001 0x2000 LINUXBOOT_MEM_RESERVED
      = { Base := 0x1000, Size := 0x1000, Type_ := 5, Flag := 0 } := by
  have htype1 : type ≠ 1 := htype
  refine ⟨?_, ?_, ?_, by decide⟩
  · rw [AddMemoryRange_eq]
    simp only
    split_ifs <;> omega
  · rw [AddMemoryRange_eq]
    simp only
    split_ifs <;> omega
  · intro hle
    rw [AddMemoryRange_eq]
    simp only
    refine ⟨?_, ?_, ?_⟩ <;> split_ifs <;> omega

/-- Witness of C2 at `(0x1001, 0x2000, Reserved)`. -/
theorem AddMemoryRange_nonRam_widens_witness :
    (AddMemoryRange 0x1001 0x2000 5).Base = 0x1001 / 4096 * 4096 ∧
    ((AddMemoryRange 0x1001 0x2000 5).Base + (AddMemoryRange 0x1001 0x2000 5).Size)
      % 2 ^ 64 = (0x2000 + 4095) / 4096 * 4096 :=
  ⟨(AddMemoryRange_nonRam_widens 0x1001 0x2000 5 (by decide) (by decide) (by decide)).1,
   (AddMemoryRange_nonRam_widens 0x1001 0x2000 5 (by decide) (by decide) (by decide)).2.1⟩

/-- C3 as stated fails: for `(0x1000, 0x1FFF, RAM)` the emitted range does not
end at `0x1000` and its size is not zero. -/
theorem AddMemoryRange_ram_1FFF_counterexample :
    ¬ ((AddMemoryRange 0x1000 0x1FFF LINUXBOOT_MEM_RAM).Base = 0x1000 ∧
       (AddMemoryRange 0x1000 0x1FFF LINUXBOOT_MEM_RAM).Base
         + (AddMemoryRange 0x1000 0x1FFF LINUXBOOT_MEM_RAM).Size = 0x1000 ∧
       (AddMemoryRange 0x1000 0x1FFF LINUXBOOT_MEM_RAM).Size = 0) := by
  decide

/-- C3 (amended): for `(0x1000, 0x1FFF, RAM)` the end is aligned up to
`0x2000`, which does not exceed `end + 1`, so the RAM shrink rule does not
fire: the emitted range has `Base = 0x1000` and `Size = 0x1000`
(`Base + Size = 0x2000`). -/
theorem AddMemoryRange_ram_1FFF :
    AddMemoryRange 0x1000 0x1FFF LINUXBOOT_MEM_RAM
      = { Base := 0x1000, Size := 0x1000, Type_ := 1, Flag := 0 } ∧
    (AddMemoryRange 0x1000 0x1FFF LINUXBOOT_MEM_RAM).Base
      + (AddMemoryRange 0x1000 0x1FFF LINUXBOOT_MEM_RAM).Size = 0x2000 := by
  decide

/-- C4 (failing input): for the RAM range `(0x1001, 0x1FFE)`, which lies
inside one page, the start is aligned up to `0x2000` and the end is stepped
down to `0x1000`; the unsigned subtraction wraps and the emitted size is
`2 ^ 64 - 0x1000`, far above `end + 1 - start`. -/
theorem AddMemoryRange_ram_subpage_wraps :
    AddMemoryRange 0x1001 0x1FFE LINUXBOOT_MEM_RAM
      = { Base := 0x2000, Size := 0xFFFFFFFFFFFFF000, Type_ := 1, Flag := 0 } ∧
    ¬ ((AddMemoryRange 0x1001 0x1FFE LINUXBOOT_MEM_RAM).Size ≤ 0x1FFE + 1 - 0x1001) ∧
    ¬ ((AddMemoryRange 0x1001 0x1FFE LINUXBOOT_MEM_RAM).Base
        + (AddMemoryRange 0x1001 0x1FFE LINUXBOOT_MEM_RAM).Size ≤ 0x1FFE + 1) := by
  decide

/-- C5: when start and end are both multiples of 4096 (64-bit values), the
emitted range is exactly `Base = start`, `Size = end - start` (modulo
`2 ^ 64`), `Type = type`, `Flag = 0`; and feeding `(Base, Base + Size, Type)`
of any emitted range back into the normalizer emits the identical range. -/
theorem AddMemoryRange_idempotent (start end_ : Nat) (type : Int)
    (hs : start % 4096 = 0) (he : end_ % 4096 = 0)
    (hs64 : start < 2 ^ 64) (he64 : end_ < 2 ^ 64) :
    AddMemoryRange start end_ type
      = { Base := start, Size := (end_ + 2 ^ 64 - start) % 2 ^ 64, Type_ := type, Flag := 0 } ∧
    ∀ (s e : Nat) (t : Int),
      AddMemoryRange (AddMemoryRange s e t).Base
          (((AddMemoryRange s e t).Base + (AddMemoryRange s e t).Size) % 2 ^ 64)
          (AddMemoryRange s e t).Type_
        = AddMemoryRange s e t := by
  have key : ∀ (a b : Nat) (ty : Int), a % 4096 = 0 → b % 4096 = 0 → a < 2 ^ 64 →
      b < 2 ^ 64 →
      AddMemoryRange a b ty
        = { Base := a, Size := (b + 2 ^ 64 - a) % 2 ^ 64, Type_ := ty, Flag := 0 } := by
    intro a b ty ha hb ha64 hb64
    rw [AddMemoryRange_eq]
    have h1 : ((a + 4095) / 4096 * 4096) % 2 ^ 64 = a := by omega
    have h2 : ((b + 4095) / 4096 * 4096) % 2 ^ 64 = b := by omega
    have h3 : ¬ (b > (b + 1) % 2 ^ 64) := by omega
    rw [h1, h2]
    have h4 : ¬ (b > (b + 1) % 2 ^ 64 ∧ ty = 1) := fun h => h3 h.1
    have h5 : ¬ (a > a ∧ ty ≠ 1) := fun h => absurd h.1 (lt_irrefl a)
    rw [if_neg h4, if_neg h5]
  refine ⟨key start end_ type hs he hs64 he64, ?_⟩
  intro s e t
  have hb : (AddMemoryRange s e t).Base % 4096 = 0 := by
    rw [AddMemoryRange_eq]
    simp only
    split_ifs <;> omega
  have hbs : ((AddMemoryRange s e t).Base + (AddMemoryRange s e t).Size) % 2 ^ 64 % 4096
      = 0 := by
    rw [AddMemoryRange_eq]
    simp only
    split_ifs <;> omega
  have hB : (AddMemoryRange s e t).Base < 2 ^ 64 := by
    rw [AddMemoryRange_eq]
    simp only
    split_ifs <;> omega
  have hS : (AddMemoryRange s e t).Size < 2 ^ 64 := by
    rw [AddMemoryRange_eq]
    simp only
    omega
  have hT : (AddMemoryRange s e t).Type_ = t := by
    rw [AddMemoryRange_eq]
  have hF : (AddMemoryRange s e t).Flag = 0 := by
    rw [AddMemoryRange_eq]
  rw [key _ _ _ hb hbs hB (Nat.mod_lt _ (by norm_num))]
  generalize AddMemoryRange s e t = r at hB hS hT hF
  obtain ⟨B, S, T, F⟩ := r
  simp only at hB hS hT hF
  subst hT hF
  simp only [MEMROY_MAP_ENTRY.mk.injEq, true_and, and_true]
  omega

/-- Witness of C5 at `(0x1000, 0x3000, RAM)`. -/
theorem AddMemoryRange_idempotent_witness :
    AddMemoryRange 0x1000 0x3000 1
      = { Base := 0x1000, Size := (0x3000 + 2 ^ 64 - 0x1000) % 2 ^ 64, Type_ := 1, Flag := 0 } :=
  (AddMemoryRange_idempotent 0x1000 0x3000 1 (by decide) (by decide) (by decide)
    (by decide)).1


/-! ## Theorems: command-line tokenizer -/

theorem nonSpaceRuns_nil : nonSpaceRuns [] = [] := by
  simp [nonSpaceRuns, List.splitOnP_nil]

theorem nonSpaceRuns_cons_space (c : Char) (s : List Char) (hc : isspace c = true) :
    nonSpaceRuns (c :: s) = nonSpaceRuns s := by
  simp [nonSpaceRuns, List.splitOnP_cons, hc]

theorem nonSpaceRuns_word (w rest : List Char) (hw : w ≠ [])
    (hfree : ∀ x ∈ w, isspace x = false)
    (hrest : rest = [] ∨ ∃ sep tl, rest = sep :: tl ∧ isspace sep = true) :
    nonSpaceRuns (w ++ rest) = w :: nonSpaceRuns rest := by
  have hfree2 : ∀ x ∈ w, ¬ (isspace x = true) := by
    intro x hx; simp [hfree x hx]
  rcases hrest with rfl | ⟨sep, tl, rfl, hsep⟩
  · rw [List.append_nil, nonSpaceRuns_nil]
    simp [nonSpaceRuns, List.splitOnP_eq_single isspace w hfree2, hw]
  · rw [nonSpaceRuns_cons_space sep tl hsep]
    simp [nonSpaceRuns, List.splitOnP_first isspace w hfree2 sep hsep, hw]

theorem isspace_NUL : isspace NUL = false := by decide

theorem length_dropWhile_le (p : Char → Bool) (l : List Char) :
    (l.dropWhile p).length ≤ l.length := by
  induction l with
  | nil => simp
  | cons c l ih =>
    simp only [List.dropWhile_cons]
    split
    · simp only [List.length_cons]; omega
    · exact le_refl _

theorem take_sub_length_dropWhile (p : Char → Bool) (l : List Char) :
    l.take (l.length - (l.dropWhile p).length) = l.takeWhile p := by
  induction l with
  | nil => simp
  | cons c l ih =>
    simp only [List.dropWhile_cons, List.takeWhile_cons]
    split
    · have := length_dropWhile_le p l
      have h : (c :: l).length - (l.dropWhile p).length
          = (l.length - (l.dropWhile p).length) + 1 := by
        simp only [List.length_cons]; omega
      rw [h, List.take_succ_cons, ih]
    · simp

theorem cstring_of_peek_NUL (b : List Char) (h : peek b = NUL) : cstring b = [] := by
  cases b with
  | nil => rfl
  | cons c l =>
    simp only [peek, List.headD_cons] at h
    simp [cstring, h]

theorem nonSpaceRuns_cstring_dropWhile (b : List Char) :
    nonSpaceRuns (cstring (b.dropWhile isspace)) = nonSpaceRuns (cstring b) := by
  induction b with
  | nil => rfl
  | cons c l ih =>
    simp only [List.dropWhile_cons]
    split
    · rename_i hc
      have hne : c ≠ NUL := by
        intro h; rw [h, isspace_NUL] at hc; exact Bool.noConfusion hc
      have : cstring (c :: l) = c :: cstring l := by
        simp [cstring, hne]
      rw [this, nonSpaceRuns_cons_space c _ hc, ih]
    · rfl

theorem isspace_peek_dropWhile (b : List Char) :
    isspace (peek (b.dropWhile isspace)) = false := by
  induction b with
  | nil => exact isspace_NUL
  | cons c l ih =>
    simp only [List.dropWhile_cons]
    split
    · exact ih
    · rename_i hc
      simpa [peek] using hc

/-- The C string splits into the token at its start and the C string of the
cursor after that token. -/
theorem cstring_split (l : List Char) :
    cstring l = l.takeWhile (fun c => !isspace c && c != NUL)
      ++ cstring (l.dropWhile (fun c => !isspace c && c != NUL)) := by
  induction l with
  | nil => rfl
  | cons c l ih =>
    simp only [List.dropWhile_cons, List.takeWhile_cons]
    split
    · rename_i hc
      have hne : c ≠ NUL := by
        intro h; rw [h] at hc; simp at hc
      have : cstring (c :: l) = c :: cstring l := by
        simp [cstring, hne]
      rw [this, ih, List.cons_append]
    · simp

theorem cstring_dropWhile_token (l : List Char) :
    cstring (l.dropWhile (fun c => !isspace c && c != NUL)) = [] ∨
    ∃ sep tl, cstring (l.dropWhile (fun c => !isspace c && c != NUL)) = sep :: tl
      ∧ isspace sep = true := by
  induction l with
  | nil => left; rfl
  | cons c l ih =>
    simp only [List.dropWhile_cons]
    split
    · exact ih
    · rename_i hc
      by_cases hn : c = NUL
      · left; simp [cstring, hn]
      · right
        refine ⟨c, cstring l, by simp [cstring, hn], ?_⟩
        simpa [hn] using hc

theorem cmdline_loop_runs (fuel : Nat) (b : List Char) (h : b.length < fuel) :
    (cmdline_loop fuel b).map tokenText = nonSpaceRuns (cstring b) := by
  induction fuel generalizing b with
  | zero => omega
  | succ fuel ih =>
    simp only [cmdline_loop, cmdline_next]
    by_cases h0 : peek b = NUL
    · simp [h0, cstring_of_peek_NUL b h0, nonSpaceRuns_nil]
    · rw [if_neg h0, ← nonSpaceRuns_cstring_dropWhile b]
      by_cases h1 : peek (b.dropWhile isspace) = NUL
      · simp [h1, cstring_of_peek_NUL _ h1, nonSpaceRuns_nil]
      · rw [if_neg h1]
        have hsp := isspace_peek_dropWhile b
        generalize hb1 : b.dropWhile isspace = b1 at *
        have hlen1 : b1.length ≤ b.length := hb1 ▸ length_dropWhile_le isspace b
        obtain ⟨c, tl, rfl⟩ : ∃ c tl, b1 = c :: tl := by
          cases b1 with
          | nil => exact absurd rfl h1
          | cons c tl => exact ⟨c, tl, rfl⟩
        simp only [peek, List.headD_cons] at h1 hsp
        have hq : (!isspace c && c != NUL) = true := by simp [hsp, h1]
        have hw : (c :: tl).takeWhile (fun c => !isspace c && c != NUL) ≠ [] := by
          simp [List.takeWhile_cons, hq]
        have hfree : ∀ x ∈ (c :: tl).takeWhile (fun c => !isspace c && c != NUL),
            isspace x = false := by
          intro x hx
          have := List.mem_takeWhile_imp hx
          simp only [Bool.and_eq_true, Bool.not_eq_true'] at this
          exact this.1
        have hlen2 : ((c :: tl).dropWhile (fun c => !isspace c && c != NUL)).length
            < (c :: tl).length := by
          simp only [List.dropWhile_cons, hq, if_true, List.length_cons]
          have := length_dropWhile_le (fun c => !isspace c && c != NUL) tl
          omega
        simp only [List.map_cons]
        rw [cstring_split (c :: tl),
          nonSpaceRuns_word _ _ hw hfree (cstring_dropWhile_token (c :: tl)),
          ih _ (by omega)]
        simp only [tokenText, take_sub_length_dropWhile]

theorem splitOnP_pieces (p : Char → Bool) (s : List Char) :
    ∀ t ∈ s.splitOnP p, ∀ c ∈ t, p c = false ∧ c ∈ s := by
  induction s with
  | nil => simp [List.splitOnP_nil]
  | cons x xs ih =>
    rw [List.splitOnP_cons]
    by_cases hx : p x = true
    · rw [if_pos hx]
      intro t ht c hc
      rcases List.mem_cons.1 ht with rfl | ht
      · simp at hc
      · exact ⟨(ih t ht c hc).1, List.mem_cons_of_mem _ (ih t ht c hc).2⟩
    · rw [if_neg hx]
      cases hsplit : xs.splitOnP p with
      | nil => simp
      | cons hd tl =>
        rw [hsplit] at ih
        intro t ht c hc
        simp only [List.modifyHead_cons, List.mem_cons] at ht
        rcases ht with rfl | ht
        · rcases List.mem_cons.1 hc with rfl | hc
          · exact ⟨by simpa using hx, List.mem_cons_self _ _⟩
          · have := ih hd (List.mem_cons_self _ _) c hc
            exact ⟨this.1, List.mem_cons_of_mem _ this.2⟩
        · have := ih t (List.mem_cons_of_mem _ ht) c hc
          exact ⟨this.1, List.mem_cons_of_mem _ this.2⟩

theorem splitOnP_flatten (p : Char → Bool) (s : List Char) :
    (s.splitOnP p).flatten = s.filter (fun c => !p c) := by
  induction s with
  | nil => simp [List.splitOnP_nil]
  | cons x xs ih =>
    rw [List.splitOnP_cons]
    by_cases hx : p x = true
    · rw [if_pos hx]
      simp [hx, ih]
    · rw [if_neg hx]
      cases hsplit : xs.splitOnP p with
      | nil => exact absurd hsplit (List.splitOnP_ne_nil p xs)
      | cons hd tl =>
        rw [hsplit] at ih
        simp only [List.modifyHead_cons, List.flatten_cons, List.cons_append] at ih ⊢
        rw [ih]
        simp [hx]

theorem nonSpaceRuns_pieces (s : List Char) :
    ∀ t ∈ nonSpaceRuns s, t ≠ [] ∧ ∀ c ∈ t, isspace c = false ∧ c ∈ s := by
  intro t ht
  simp only [nonSpaceRuns, List.mem_filter] at ht
  refine ⟨?_, splitOnP_pieces isspace s t ht.1⟩
  intro h
  rw [h] at ht
  simp at ht

theorem nonSpaceRuns_flatten (s : List Char) :
    (nonSpaceRuns s).flatten = s.filter (fun c => !isspace c) := by
  rw [nonSpaceRuns, List.flatten_filter_not_isEmpty, splitOnP_flatten]

theorem not_NUL_of_mem_cstring (b : List Char) (c : Char) (h : c ∈ cstring b) : c ≠ NUL := by
  have := List.mem_takeWhile_imp h
  simpa using this

/-- C6: iterating `cmdline_next` from the buffer start until it returns NULL
yields, in order, exactly the maximal runs of non-whitespace characters of the
C string in the buffer, for any fuel above the buffer length; every token is
non-empty and has neither whitespace nor NUL in it, and the tokens together
hold every non-whitespace character of the string.  In particular
`"  mem=0,0x1000,1   ACPI20=0xE0000,0x20000"` yields exactly the two tokens
`"mem=0,0x1000,1"` and `"ACPI20=0xE0000,0x20000"`. -/
theorem cmdline_tokens_spec (b : List Char) :
    (∀ fuel, b.length < fuel →
      (cmdline_loop fuel b).map tokenText = nonSpaceRuns (cstring b)) ∧
    cmdline_tokens b = nonSpaceRuns (cstring b) ∧
    (∀ t ∈ cmdline_tokens b, t ≠ [] ∧ ∀ c ∈ t, isspace c = false ∧ c ≠ NUL) ∧
    (cmdline_tokens b).flatten = (cstring b).filter (fun c => !isspace c) ∧
    cmdline_tokens "  mem=0,0x1000,1   ACPI20=0xE0000,0x20000".toList
      = ["mem=0,0x1000,1".toList, "ACPI20=0xE0000,0x20000".toList] := by
  have hmain : cmdline_tokens b = nonSpaceRuns (cstring b) :=
    cmdline_loop_runs (b.length + 1) b (Nat.lt_succ_self _)
  refine ⟨fun fuel h => cmdline_loop_runs fuel b h, hmain, ?_, ?_, by decide⟩
  · intro t ht
    rw [hmain] at ht
    obtain ⟨hne, hall⟩ := nonSpaceRuns_pieces _ t ht
    exact ⟨hne, fun c hc => ⟨(hall c hc).1, not_NUL_of_mem_cstring b c (hall c hc).2⟩⟩
  · rw [hmain, nonSpaceRuns_flatten]

/-- Witness of C6 on the buffer `" a  b"` with fuel 6. -/
theorem cmdline_tokens_spec_witness :
    (cmdline_loop 6 " a  b".toList).map tokenText = nonSpaceRuns (cstring " a  b".toList) :=
  (cmdline_tokens_spec " a  b".toList).1 6 (by decide)

/-! ## Theorems: integer lexer -/

theorem isValueEnd_cases (c : Char) (h : isValueEnd c = true) :
    c = ',' ∨ c = NUL ∨ c = ' ' ∨ c = '\t' ∨ c = '\n' := by
  simp only [isValueEnd, isspace, Bool.or_eq_true, beq_iff_eq] at h
  tauto

theorem isValueEnd_props (c : Char) (h : isValueEnd c = true) :
    InternalAsciiIsDecimalDigitCharacter c = false ∧
    InternalAsciiIsHexaDecimalDigitCharacter c = false ∧ c ≠ 'x' ∧ c ≠ '0' := by
  rcases isValueEnd_cases c h with rfl | rfl | rfl | rfl | rfl <;> decide

theorem isValueEnd_peek_nil : isValueEnd (peek []) = true := by decide

theorem decimalDigits_end (tail : List Char) (d : Nat)
    (htail : isValueEnd (peek tail) = true) : decimalDigits tail d = (d, tail) := by
  cases tail with
  | nil => rfl
  | cons c t =>
    have := (isValueEnd_props c htail).1
    simp [decimalDigits, this]

theorem hexDigits_end (tail : List Char) (d : Nat)
    (htail : isValueEnd (peek tail) = true) : hexDigits tail d = (d, tail) := by
  cases tail with
  | nil => rfl
  | cons c t =>
    have := (isValueEnd_props c htail).2.1
    simp [hexDigits, this]

theorem le_foldl_decimal (v : List Char) (d : Nat) :
    d ≤ v.foldl (fun d c => d * 10 + (c.toNat - '0'.toNat)) d := by
  induction v generalizing d with
  | nil => exact le_refl _
  | cons c v ih =>
    simp only [List.foldl_cons]
    exact le_trans (by omega) (ih _)

theorem le_foldl_hex (v : List Char) (d : Nat) :
    d ≤ v.foldl (fun d c => d * 16 + InternalAsciiHexCharToUintn c) d := by
  induction v generalizing d with
  | nil => exact le_refl _
  | cons c v ih =>
    simp only [List.foldl_cons]
    exact le_trans (by omega) (ih _)

theorem decimalDigits_append (v tail : List Char) (d : Nat)
    (hv : ∀ c ∈ v, InternalAsciiIsDecimalDigitCharacter c = true)
    (hfit : v.foldl (fun d c => d * 10 + (c.toNat - '0'.toNat)) d < 2 ^ 64)
    (htail : isValueEnd (peek tail) = true) :
    decimalDigits (v ++ tail) d
      = (v.foldl (fun d c => d * 10 + (c.toNat - '0'.toNat)) d, tail) := by
  induction v generalizing d with
  | nil => exact decimalDigits_end tail d htail
  | cons c v ih =>
    simp only [List.foldl_cons] at hfit ⊢
    have hc := hv c (List.mem_cons_self _ _)
    have hle := le_foldl_decimal v (d * 10 + (c.toNat - '0'.toNat))
    have hno : ¬ (d > (MAX_UINT64 - (c.toNat - '0'.toNat)) / 10) := by
      have : d ≤ (MAX_UINT64 - (c.toNat - '0'.toNat)) / 10 := by
        rw [Nat.le_div_iff_mul_le (by norm_num)]
        simp only [MAX_UINT64]
        omega
      omega
    simp only [List.cons_append, decimalDigits, hc, if_true, if_neg hno]
    exact ih _ (fun x hx => hv x (List.mem_cons_of_mem _ hx)) hfit

theorem hexDigits_append (v tail : List Char) (d : Nat)
    (hv : ∀ c ∈ v, InternalAsciiIsHexaDecimalDigitCharacter c = true)
    (hfit : v.foldl (fun d c => d * 16 + InternalAsciiHexCharToUintn c) d < 2 ^ 64)
    (htail : isValueEnd (peek tail) = true) :
    hexDigits (v ++ tail) d
      = (v.foldl (fun d c => d * 16 + InternalAsciiHexCharToUintn c) d, tail) := by
  induction v generalizing d with
  | nil => exact hexDigits_end tail d htail
  | cons c v ih =>
    simp only [List.foldl_cons] at hfit ⊢
    have hc := hv c (List.mem_cons_self _ _)
    have hle := le_foldl_hex v (d * 16 + InternalAsciiHexCharToUintn c)
    have hno : ¬ (d > (MAX_UINT64 - InternalAsciiHexCharToUintn c) / 16) := by
      have : d ≤ (MAX_UINT64 - InternalAsciiHexCharToUintn c) / 16 := by
        rw [Nat.le_div_iff_mul_le (by norm_num)]
        simp only [MAX_UINT64]
        omega
      omega
    simp only [List.cons_append, hexDigits, hc, if_true, if_neg hno]
    exact ih _ (fun x hx => hv x (List.mem_cons_of_mem _ hx)) hfit

theorem decimalValue_dropWhile_zero (v : List Char) :
    decimalValue (v.dropWhile (fun c => c == '0')) = decimalValue v := by
  induction v with
  | nil => rfl
  | cons c v ih =>
    simp only [List.dropWhile_cons]
    split
    · rename_i hc
      have hc0 : c = '0' := by simpa using hc
      rw [ih, hc0]
      simp [decimalValue]
    · rfl

theorem dropWhile_append_of_end (p : Char → Bool) (v tail : List Char)
    (htail : tail = [] ∨ ∃ c t, tail = c :: t ∧ p c = false) :
    (v ++ tail).dropWhile p = v.dropWhile p ++ tail := by
  induction v with
  | nil =>
    rcases htail with rfl | ⟨c, t, rfl, hc⟩
    · rfl
    · simp [List.dropWhile_cons, hc]
  | cons c v ih =>
    simp only [List.cons_append, List.dropWhile_cons]
    split
    · exact ih
    · rfl

theorem peek_end_cases (p : Char → Bool) (tail : List Char)
    (h : p (peek tail) = false) : tail = [] ∨ ∃ c t, tail = c :: t ∧ p c = false := by
  cases tail with
  | nil => left; rfl
  | cons c t => right; exact ⟨c, t, rfl, h⟩

theorem AsciiStrDecimalToUint64S_text (v tail : List Char)
    (hv : isDecimalText v = true) (hfit : decimalValue v < 2 ^ 64)
    (htail : isValueEnd (peek tail) = true) :
    AsciiStrDecimalToUint64S (v ++ tail) = (decimalValue v, tail) := by
  simp only [isDecimalText, Bool.and_eq_true, List.all_eq_true] at hv
  obtain ⟨hne, hall⟩ := hv
  obtain ⟨c, w, rfl⟩ : ∃ c w, v = c :: w := by
    cases v with
    | nil => simp at hne
    | cons c w => exact ⟨c, w, rfl⟩
  have hcd := hall c (List.mem_cons_self _ _)
  have hpad : (c == ' ' || c == '\t') = false := by
    have : c ≠ ' ' ∧ c ≠ '\t' := by
      constructor <;> (intro h; rw [h] at hcd; revert hcd; decide)
    simp [this]
  have hzero : (fun c => c == '0') (peek tail) = false := by
    simpa using (isValueEnd_props _ htail).2.2.2
  simp only [AsciiStrDecimalToUint64S]
  rw [show (c :: w ++ tail).dropWhile (fun c => c == ' ' || c == '\t') = c :: w ++ tail from by
    simp only [List.cons_append, List.dropWhile_cons]
    rw [hpad]; rfl]
  rw [dropWhile_append_of_end _ _ _ (peek_end_cases _ tail hzero)]
  rw [decimalDigits_append _ _ _ ?_ ?_ htail]
  · exact congrArg (fun x => (x, tail)) (decimalValue_dropWhile_zero (c :: w))
  · intro x hx
    exact hall x ((List.dropWhile_sublist _).subset hx)
  · have := decimalValue_dropWhile_zero (c :: w)
    simp only [decimalValue] at this hfit
    rw [this]; exact hfit

theorem AsciiStrHexToUint64S_text (h tail : List Char)
    (hh : ∀ c ∈ h, InternalAsciiIsHexaDecimalDigitCharacter c = true)
    (hfit : hexValue h < 2 ^ 64) (htail : isValueEnd (peek tail) = true) :
    AsciiStrHexToUint64S ('0' :: 'x' :: h ++ tail) = (hexValue h, tail) := by
  have h1 : ('0' :: 'x' :: h ++ tail).dropWhile (fun c => c == ' ' || c == '\t')
      = '0' :: 'x' :: (h ++ tail) := by
    simp [List.dropWhile_cons]
  have h2 : ('0' :: 'x' :: (h ++ tail)).dropWhile (fun c => c == '0')
      = 'x' :: (h ++ tail) := by
    simp [List.dropWhile_cons]
  have h3 : InternalBaseLibAsciiToUpper 'x' = 'X' := by decide
  simp only [AsciiStrHexToUint64S, h1, h2, peek, List.headD_cons, h3, if_true,
    List.length_cons, List.tail_cons]
  rw [if_neg (by omega)]
  exact hexDigits_append h tail 0 hh hfit htail

theorem parse_int_text (v tail : List Char) (hv : wellFormedValue v = true)
    (htail : isValueEnd (peek tail) = true) :
    parse_int (v ++ tail) = (valueOf v, tail) := by
  simp only [wellFormedValue, Bool.and_eq_true, Bool.or_eq_true, decide_eq_true_eq] at hv
  obtain ⟨hform, hfit⟩ := hv
  by_cases hx : ∃ h, v = '0' :: 'x' :: h
  · obtain ⟨h, rfl⟩ := hx
    have hd : isDecimalText ('0' :: 'x' :: h) = false := by
      simp only [isDecimalText, List.all_cons]
      have : InternalAsciiIsDecimalDigitCharacter 'x' = false := by decide
      simp [this]
    rw [hd] at hform
    simp only [Bool.false_eq_true, false_or, isHexText, Bool.and_eq_true,
      List.all_eq_true] at hform
    simp only [valueOf] at hfit ⊢
    have hp : peek ('0' :: 'x' :: h ++ tail) = '0'
        ∧ peek ('0' :: 'x' :: h ++ tail).tail = 'x' := ⟨rfl, rfl⟩
    rw [parse_int, if_pos hp]
    exact AsciiStrHexToUint64S_text h tail hform.2 hfit htail
  · have hnot : isHexText v = false := by
      cases hv : isHexText v with
      | false => rfl
      | true =>
        exfalso; apply hx
        unfold isHexText at hv
        split at hv
        · exact ⟨_, rfl⟩
        · exact Bool.noConfusion hv
    have hval : valueOf v = decimalValue v := by
      unfold valueOf
      split
      · exact absurd ⟨_, rfl⟩ hx
      · rfl
    rw [hnot] at hform
    simp only [Bool.false_eq_true, or_false] at hform
    rw [hval] at hfit ⊢
    have hp : ¬ (peek (v ++ tail) = '0' ∧ peek (v ++ tail).tail = 'x') := by
      rintro ⟨h0, h1⟩
      have hform' := hform
      simp only [isDecimalText, Bool.and_eq_true, List.all_eq_true] at hform'
      obtain ⟨hne, hall⟩ := hform'
      have hxd : InternalAsciiIsDecimalDigitCharacter 'x' = false := by decide
      cases v with
      | nil => simp at hne
      | cons c w =>
        cases w with
        | nil =>
          simp only [List.cons_append, List.nil_append, List.tail_cons] at h1
          have := (isValueEnd_props _ htail).2.2.1
          exact this h1
        | cons c2 w2 =>
          simp only [List.cons_append, List.tail_cons, peek, List.headD_cons] at h1
          have := hall c2 (by simp)
          rw [h1, hxd] at this
          exact Bool.noConfusion this
    rw [parse_int, if_neg hp]
    exact AsciiStrDecimalToUint64S_text v tail hform hfit htail

/-! ## Theorems: option value-list parser -/

theorem storeValues_eq (vals : List Nat) (i : Nat) (args : List Nat)
    (h : i + vals.length ≤ args.length) :
    storeValues i vals args = args.take i ++ vals ++ args.drop (i + vals.length) := by
  induction vals generalizing i args with
  | nil => simp [storeValues]
  | cons x xs ih =>
    simp only [List.length_cons] at h
    have hi : i < args.length := by omega
    rw [storeValues, ih (i + 1) (args.set i x) (by simp only [List.length_set]; omega)]
    rw [List.set_eq_take_append_cons_drop, if_pos hi]
    have h1 : (List.take i args ++ x :: List.drop (i + 1) args).take (i + 1)
        = List.take i args ++ [x] := by
      rw [List.take_append_eq_append_take]
      simp [List.length_take, Nat.min_eq_left (le_of_lt hi)]
    have h2 : (List.take i args ++ x :: List.drop (i + 1) args).drop (i + 1 + xs.length)
        = args.drop (i + (xs.length + 1)) := by
      rw [List.drop_append_eq_append_drop]
      simp only [List.length_take, Nat.min_eq_left (le_of_lt hi)]
      rw [List.drop_eq_nil_of_le (by simp only [List.length_take]; omega)]
      have : i + 1 + xs.length - i = (xs.length) + 1 := by omega
      rw [this, List.nil_append, List.drop_succ_cons, List.drop_drop]
      congr 1
      omega
    rw [h1, h2]
    simp

theorem cmdline_ints_skip_key (key s : List Char) (hkey : isKey key = true) :
    cmdline_ints_skip (key ++ '=' :: s) = some s := by
  induction key with
  | nil => simp [cmdline_ints_skip]
  | cons c key ih =>
    simp only [isKey, List.all_cons, Bool.and_eq_true, bne_iff_ne, ne_eq,
      Bool.not_eq_true'] at hkey
    obtain ⟨⟨⟨h1, h2⟩, h3⟩, hrest⟩ := hkey
    simp only [List.cons_append, cmdline_ints_skip, if_neg h1, h2, h3, false_or,
      Bool.false_eq_true, if_false]
    exact ih (by simpa [isKey] using hrest)

theorem intercalate_single (v : List Char) : List.intercalate [','] [v] = v := by
  simp [List.intercalate, List.intersperse]

theorem intercalate_cons_cons (v w : List Char) (vs : List (List Char)) :
    List.intercalate [','] (v :: w :: vs) = v ++ ',' :: List.intercalate [','] (w :: vs) := by
  simp [List.intercalate, List.intersperse]

theorem isValueEnd_of_terminator (rest : List Char)
    (h : peek rest = NUL ∨ isspace (peek rest) = true) : isValueEnd (peek rest) = true := by
  rcases h with h | h <;> simp [isValueEnd, h]

theorem cmdline_ints_for_values (vs : List (List Char)) :
    ∀ (n i : Nat) (args : List Nat) (rest : List Char), vs ≠ [] →
      (∀ v ∈ vs, wellFormedValue v = true) → vs.length ≤ n →
      (peek rest = NUL ∨ isspace (peek rest) = true) →
      cmdline_ints_for n i (List.intercalate [','] vs ++ rest) args
        = (((i + vs.length : Nat) : Int), storeValues i (vs.map valueOf) args) := by
  induction vs with
  | nil => intro n i args rest hne; exact absurd rfl hne
  | cons v vs ih =>
    intro n i args rest _ hwf hlen hrest
    obtain ⟨n, rfl⟩ : ∃ m, n = m + 1 := ⟨n - 1, by simp only [List.length_cons] at hlen; omega⟩
    have hv := hwf v (List.mem_cons_self _ _)
    cases vs with
    | nil =>
      rw [intercalate_single, cmdline_ints_for,
        parse_int_text v rest hv (isValueEnd_of_terminator rest hrest)]
      simp only [hrest, if_true, List.map_cons, List.map_nil, storeValues, List.length_cons,
        List.length_nil]
      rfl
    | cons w vs =>
      have hend : isValueEnd (peek (',' :: (List.intercalate [','] (w :: vs) ++ rest))) = true :=
        (by decide : isValueEnd ',' = true)
      rw [intercalate_cons_cons, List.append_assoc, List.cons_append, cmdline_ints_for,
        parse_int_text v _ hv hend]
      have h1 : ¬ (peek (',' :: (List.intercalate [','] (w :: vs) ++ rest)) = NUL ∨
          isspace (peek (',' :: (List.intercalate [','] (w :: vs) ++ rest))) = true) :=
        (by decide : ¬ (',' = NUL ∨ isspace ',' = true))
      have h2 : ¬ (peek (',' :: (List.intercalate [','] (w :: vs) ++ rest)) ≠ ',') :=
        (by decide : ¬ (',' ≠ ','))
      simp only [if_neg h1, if_neg h2, List.tail_cons]
      rw [ih n (i + 1) (args.set i (valueOf v)) rest (List.cons_ne_nil _ _)
        (fun x hx => hwf x (List.mem_cons_of_mem _ hx))
        (by simp only [List.length_cons] at hlen ⊢; omega) hrest]
      simp only [List.map_cons, storeValues, List.length_cons]
      congr 2
      omega

theorem cmdline_ints_for_too_many (n : Nat) :
    ∀ (vs : List (List Char)) (i : Nat) (args : List Nat) (rest : List Char),
      (∀ v ∈ vs, wellFormedValue v = true) → n < vs.length →
      (cmdline_ints_for n i (List.intercalate [','] vs ++ rest) args).1 = -1 := by
  induction n with
  | zero => intro vs i args rest _ _; rfl
  | succ n ih =>
    intro vs i args rest hwf hlen
    match vs, hwf, hlen with
    | [], _, hlen => simp at hlen
    | [v], _, hlen => simp at hlen
    | v :: w :: vs, hwf, hlen =>
      have hv := hwf v (List.mem_cons_self _ _)
      have hend : isValueEnd (peek (',' :: (List.intercalate [','] (w :: vs) ++ rest))) = true :=
        (by decide : isValueEnd ',' = true)
      rw [intercalate_cons_cons, List.append_assoc, List.cons_append, cmdline_ints_for,
        parse_int_text v _ hv hend]
      have h1 : ¬ (peek (',' :: (List.intercalate [','] (w :: vs) ++ rest)) = NUL ∨
          isspace (peek (',' :: (List.intercalate [','] (w :: vs) ++ rest))) = true) :=
        (by decide : ¬ (',' = NUL ∨ isspace ',' = true))
      have h2 : ¬ (peek (',' :: (List.intercalate [','] (w :: vs) ++ rest)) ≠ ',') :=
        (by decide : ¬ (',' ≠ ','))
      simp only [if_neg h1, if_neg h2, List.tail_cons]
      exact ih (w :: vs) (i + 1) _ rest (fun x hx => hwf x (List.mem_cons_of_mem _ hx))
        (by simp only [List.length_cons] at hlen ⊢; omega)

theorem cmdline_ints_skip_none (t : List Char)
    (ht : '=' ∉ t.takeWhile (fun c => !isspace c && c != NUL)) :
    cmdline_ints_skip t = none := by
  induction t with
  | nil => rfl
  | cons c t ih =>
    by_cases h1 : c = '='
    · exfalso; apply ht
      rw [h1]
      have : (!isspace '=' && '=' != NUL) = true := by decide
      simp [List.takeWhile_cons, this]
    · by_cases h2 : c = NUL ∨ isspace c = true
      · simp [cmdline_ints_skip, h1, h2]
      · have hq : (!isspace c && c != NUL) = true := by
          simp only [not_or, Bool.not_eq_true] at h2
          simp [h2.1, h2.2]
        simp only [cmdline_ints_skip, if_neg h1, if_neg h2]
        apply ih
        intro hmem
        apply ht
        simp only [List.takeWhile_cons, hq, if_true]
        exact List.mem_cons_of_mem _ hmem

/-- C7: for a token `key=v1,...,vk` terminated by NUL or whitespace, with
`1 ≤ k ≤ max` and every `vi` a well-formed value (decimal digits, or `0x` and
hexadecimal digits, below `2 ^ 64`), `cmdline_ints` returns `k`, and (the array
having room for `k` values) stores the values of `v1 .. vk` in `args[0 .. k-1]`,
leaving the rest of the array alone.  In particular `"mem=0,4096,1"` with
`max = 3` returns 3 with `args = [0, 4096, 1]`, and `"mem=0,4096"` returns 2. -/
theorem cmdline_ints_well_formed (key : List Char) (vs : List (List Char))
    (rest : List Char) (args : List Nat) (max : Int)
    (hkey : isKey key = true) (hvs : ∀ v ∈ vs, wellFormedValue v = true)
    (hk : 1 ≤ vs.length) (hmax : (vs.length : Int) ≤ max)
    (hrest : peek rest = NUL ∨ isspace (peek rest) = true) :
    (cmdline_ints (key ++ '=' :: (List.intercalate [','] vs ++ rest)) args max).1
      = (vs.length : Int) ∧
    (vs.length ≤ args.length →
      (cmdline_ints (key ++ '=' :: (List.intercalate [','] vs ++ rest)) args max).2
        = vs.map valueOf ++ args.drop vs.length) ∧
    (∀ a b c : Nat, cmdline_ints "mem=0,4096,1".toList [a, b, c] 3 = (3, [0, 4096, 1])) ∧
    (∀ a b c : Nat, cmdline_ints "mem=0,4096".toList [a, b, c] 3 = (2, [0, 4096, c])) := by
  have hne : vs ≠ [] := by
    intro h; rw [h] at hk; simp at hk
  have hrun : cmdline_ints (key ++ '=' :: (List.intercalate [','] vs ++ rest)) args max
      = (((0 + vs.length : Nat) : Int), storeValues 0 (vs.map valueOf) args) := by
    rw [cmdline_ints, cmdline_ints_skip_key key _ hkey]
    exact cmdline_ints_for_values vs max.toNat 0 args rest hne hvs (by omega) hrest
  refine ⟨?_, ?_, fun a b c => rfl, fun a b c => rfl⟩
  · rw [hrun]; simp
  · intro hlen
    rw [hrun]
    simp only
    rw [storeValues_eq _ _ _ (by simpa using hlen)]
    simp

/-- Witness of C7 on the token `mem=0,0x1000,1` with `max = 3`. -/
theorem cmdline_ints_well_formed_witness :
    (cmdline_ints ("mem".toList ++ '=' ::
        (List.intercalate [','] ["0".toList, "0x1000".toList, "1".toList] ++ []))
      [7, 7, 7] 3).1 = (["0".toList, "0x1000".toList, "1".toList].length : Int) :=
  (cmdline_ints_well_formed "mem".toList ["0".toList, "0x1000".toList, "1".toList] []
    [7, 7, 7] 3 (by decide) (by decide) (by decide) (by decide) (by decide)).1

/-- C8 (failing input): on `"mem=0;4096,1"` the first value is parsed and stored
and the character after it is not a separator, yet `cmdline_ints` returns 0,
not -1; the error value -1 is returned only when the bad separator follows the
second or a later value, as on `"mem=0,4096;1"`. -/
theorem cmdline_ints_bad_separator_after_first :
    (∀ a b c : Nat, cmdline_ints "mem=0;4096,1".toList [a, b, c] 3 = (0, [0, b, c])) ∧
    (∀ a b c : Nat, cmdline_ints "mem=0,4096;1".toList [a, b, c] 3 = (-1, [0, 4096, c])) :=
  ⟨fun _ _ _ => rfl, fun _ _ _ => rfl⟩

/-- C9: for a token `key=v1,...,vk` of well-formed values with `k > max`,
`cmdline_ints` returns -1 (for every `max`, in particular every `max ≥ 1`);
e.g. `"mem=1,2,3,4"` with `max = 3` returns -1. -/
theorem cmdline_ints_too_many (key : List Char) (vs : List (List Char))
    (rest : List Char) (args : List Nat) (max : Int)
    (hkey : isKey key = true) (hvs : ∀ v ∈ vs, wellFormedValue v = true)
    (hk : max < (vs.length : Int)) :
    (cmdline_ints (key ++ '=' :: (List.intercalate [','] vs ++ rest)) args max).1 = -1 ∧
    (∀ args : List Nat, (cmdline_ints "mem=1,2,3,4".toList args 3).1 = -1) := by
  refine ⟨?_, fun _ => rfl⟩
  rw [cmdline_ints, cmdline_ints_skip_key key _ hkey]
  by_cases hpos : 0 < max
  · exact cmdline_ints_for_too_many max.toNat vs 0 args rest hvs (by omega)
  · have h0 : max.toNat = 0 := by omega
    rw [h0]; rfl

/-- Witness of C9 on the token `mem=1,2,3,4` with `max = 3`. -/
theorem cmdline_ints_too_many_witness :
    (cmdline_ints ("mem".toList ++ '=' ::
        (List.intercalate [','] ["1".toList, "2".toList, "3".toList, "4".toList] ++ []))
      [7, 7, 7] 3).1 = -1 :=
  (cmdline_ints_too_many "mem".toList ["1".toList, "2".toList, "3".toList, "4".toList] []
    [7, 7, 7] 3 (by decide) (by decide) (by decide)).1

/-- C10: for a text `t` with no `=` before its first whitespace or NUL,
`cmdline_ints` runs its value loop from the first character of `t`, so it
returns the same count and stores the same values as on `key=t` for any key,
in particular as on `"k=" ++ t`; e.g. `"12,34"` with `max = 2` returns 2 with
`args = [12, 34]`. -/
theorem cmdline_ints_fallback (t key : List Char) (args : List Nat) (max : Int)
    (ht : '=' ∉ t.takeWhile (fun c => !isspace c && c != NUL))
    (hkey : isKey key = true) :
    cmdline_ints t args max = cmdline_ints_for max.toNat 0 t args ∧
    cmdline_ints t args max = cmdline_ints (key ++ '=' :: t) args max ∧
    cmdline_ints t args max = cmdline_ints ("k=".toList ++ t) args max ∧
    (∀ a b : Nat, cmdline_ints "12,34".toList [a, b] 2 = (2, [12, 34])) := by
  have h0 : cmdline_ints t args max = cmdline_ints_for max.toNat 0 t args := by
    rw [cmdline_ints, cmdline_ints_skip_none t ht]; rfl
  have hk : ∀ k : List Char, isKey k = true →
      cmdline_ints (k ++ '=' :: t) args max = cmdline_ints_for max.toNat 0 t args := by
    intro k hk
    rw [cmdline_ints, cmdline_ints_skip_key k t hk]; rfl
  refine ⟨h0, ?_, ?_, fun _ _ => rfl⟩
  · rw [h0, hk key hkey]
  · rw [h0]
    exact (hk ['k'] (by decide)).symm

/-- Witness of C10 on the text `12,34` and the key `k`. -/
theorem cmdline_ints_fallback_witness :
    cmdline_ints "12,34".toList [7, 7] 2 = cmdline_ints ("k".toList ++ '=' :: "12,34".toList) [7, 7] 2 :=
  (cmdline_ints_fallback "12,34".toList "k".toList [7, 7] 2 (by decide) (by decide)).2.1

/-! ## Theorems: prefix test -/

theorem char_sub_eq_zero_iff (a b : Char) :
    ((a.toNat : Int) - (b.toNat : Int) = 0) ↔ a = b := by
  constructor
  · intro h
    have h' : a.toNat = b.toNat := by omega
    exact Char.ext (UInt32.ext (by simpa [Char.toNat] using h'))
  · intro h; rw [h]; simp

theorem AsciiStrnCmp_eq_zero_iff (key : List Char) :
    ∀ option : List Char, key ≠ [] → (∀ c ∈ key, c ≠ NUL) →
      (AsciiStrnCmp option key key.length = 0 ↔ key <+: option) := by
  induction key with
  | nil => intro option h; exact absurd rfl h
  | cons k ks ih =>
    intro option _ hnul
    have hk : k ≠ NUL := hnul k (List.mem_cons_self _ _)
    cases ks with
    | nil =>
      have hlen : ([k] : List Char).length = 0 + 1 := rfl
      rw [hlen, AsciiStrnCmp]
      have hno : ¬ (peek option ≠ NUL ∧ peek [k] ≠ NUL ∧ peek option = peek [k] ∧ 0 + 1 > 1) := by
        intro h; omega
      rw [if_neg hno, char_sub_eq_zero_iff]
      cases option with
      | nil =>
        simp only [peek, List.headD_nil, List.headD_cons]
        constructor
        · intro h; exact absurd h.symm hk
        · intro h; simp at h
      | cons c t =>
        simp only [peek, List.headD_cons]
        constructor
        · intro h; rw [h]; exact ⟨t, rfl⟩
        · rintro ⟨r, hr⟩
          simp only [List.singleton_append, List.cons.injEq] at hr
          exact hr.1.symm
    | cons k2 ks =>
      have hlen : (k :: k2 :: ks).length = (k2 :: ks).length + 1 := rfl
      rw [hlen, AsciiStrnCmp]
      have ih' := ih
      cases option with
      | nil =>
        have hno : ¬ (peek ([] : List Char) ≠ NUL ∧ peek (k :: k2 :: ks) ≠ NUL ∧
            peek ([] : List Char) = peek (k :: k2 :: ks) ∧ (k2 :: ks).length + 1 > 1) := by
          intro h; exact h.1 rfl
        rw [if_neg hno, char_sub_eq_zero_iff]
        simp only [peek, List.headD_nil, List.headD_cons]
        constructor
        · intro h; exact absurd h.symm hk
        · intro h; simp at h
      | cons c t =>
        by_cases hc : c = k
        · subst hc
          have hyes : peek (c :: t) ≠ NUL ∧ peek (c :: k2 :: ks) ≠ NUL ∧
              peek (c :: t) = peek (c :: k2 :: ks) ∧ (k2 :: ks).length + 1 > 1 := by
            refine ⟨hk, hk, rfl, ?_⟩
            simp only [List.length_cons]; omega
          rw [if_pos hyes]
          simp only [List.tail_cons]
          rw [ih' t (List.cons_ne_nil _ _) (fun x hx => hnul x (List.mem_cons_of_mem _ hx))]
          constructor
          · rintro ⟨r, hr⟩; exact ⟨r, by rw [← hr]; rfl⟩
          · rintro ⟨r, hr⟩
            simp only [List.cons_append, List.cons.injEq, true_and] at hr
            exact ⟨r, hr⟩
        · have hno : ¬ (peek (c :: t) ≠ NUL ∧ peek (k :: k2 :: ks) ≠ NUL ∧
              peek (c :: t) = peek (k :: k2 :: ks) ∧ (k2 :: ks).length + 1 > 1) := by
            intro h; exact hc h.2.2.1
          rw [if_neg hno, char_sub_eq_zero_iff]
          simp only [peek, List.headD_cons]
          constructor
          · intro h; exact absurd h hc
          · rintro ⟨r, hr⟩
            simp only [List.cons_append, List.cons.injEq] at hr
            exact absurd hr.1.symm hc

theorem strncmp_mem_iff (option : List Char) :
    strncmp option "mem=".toList 4 = 0 ↔ "mem=".toList <+: option :=
  AsciiStrnCmp_eq_zero_iff "mem=".toList option (by decide) (by decide)

theorem strncmp_acpi_iff (option : List Char) :
    strncmp option "ACPI20=".toList 7 = 0 ↔ "ACPI20=".toList <+: option :=
  AsciiStrnCmp_eq_zero_iff "ACPI20=".toList option (by decide) (by decide)

theorem strncmp_smbios_iff (option : List Char) :
    strncmp option "SMBIOS=".toList 7 = 0 ↔ "SMBIOS=".toList <+: option :=
  AsciiStrnCmp_eq_zero_iff "SMBIOS=".toList option (by decide) (by decide)

theorem strncmp_serial_iff (option : List Char) :
    strncmp option "serial=".toList 7 = 0 ↔ "serial=".toList <+: option :=
  AsciiStrnCmp_eq_zero_iff "serial=".toList option (by decide) (by decide)

/-! ## Theorems: cursor movement of the tokenizer -/

theorem cmdline_next_some (c c' option : List Char) (h : cmdline_next c = some (c', option)) :
    peek c ≠ NUL ∧ option = c.dropWhile isspace ∧ peek option ≠ NUL ∧
    c' = option.dropWhile (fun x => !isspace x && x != NUL) := by
  unfold cmdline_next at h
  by_cases h0 : peek c = NUL
  · rw [if_pos h0] at h; exact Option.noConfusion h
  · rw [if_neg h0] at h
    by_cases h1 : peek (c.dropWhile isspace) = NUL
    · simp only [h1, if_true] at h; exact Option.noConfusion h
    · simp only [h1, if_false, Option.some.injEq, Prod.mk.injEq] at h
      obtain ⟨hc', hopt⟩ := h
      subst hopt
      exact ⟨h0, rfl, h1, hc'.symm⟩

theorem length_takeWhile_add_dropWhile (p : Char → Bool) (l : List Char) :
    (l.takeWhile p).length + (l.dropWhile p).length = l.length := by
  rw [← List.length_append, List.takeWhile_append_dropWhile]

theorem cstring_split_of_not_NUL (p : Char → Bool) (hp : ∀ x, p x = true → x ≠ NUL)
    (l : List Char) : cstring l = l.takeWhile p ++ cstring (l.dropWhile p) := by
  induction l with
  | nil => rfl
  | cons c l ih =>
    simp only [List.dropWhile_cons, List.takeWhile_cons]
    split
    · rename_i hc
      have hne : c ≠ NUL := hp c hc
      have : cstring (c :: l) = c :: cstring l := by
        simp [cstring, hne]
      rw [this, ih, List.cons_append]
    · simp

theorem isspace_not_NUL (x : Char) (h : isspace x = true) : x ≠ NUL := by
  intro hx; rw [hx, isspace_NUL] at h; exact Bool.noConfusion h

theorem tokenChar_not_NUL (x : Char) (h : (!isspace x && x != NUL) = true) : x ≠ NUL := by
  simp only [Bool.and_eq_true, bne_iff_ne, ne_eq] at h
  exact h.2

theorem cmdline_next_lengths (c c' option : List Char)
    (h : cmdline_next c = some (c', option)) :
    option <:+ c ∧ c' <:+ option ∧ c'.length < option.length ∧ option.length ≤ c.length ∧
    c.length - c'.length ≤ (cstring c).length := by
  obtain ⟨_, hopt, hpk, hc'⟩ := cmdline_next_some c c' option h
  have hsp : isspace (peek option) = false := hopt ▸ isspace_peek_dropWhile c
  have h1 := length_takeWhile_add_dropWhile isspace c
  have h2 := length_takeWhile_add_dropWhile (fun x => !isspace x && x != NUL) option
  have h3 := cstring_split_of_not_NUL isspace isspace_not_NUL c
  have h4 := cstring_split_of_not_NUL (fun x => !isspace x && x != NUL) tokenChar_not_NUL option
  rw [← hopt] at h1 h3
  rw [← hc'] at h2 h4
  rw [h4] at h3
  have h5 := congrArg List.length h3
  simp only [List.length_append] at h5
  have hpos : 0 < (option.takeWhile (fun x => !isspace x && x != NUL)).length := by
    cases option with
    | nil => exact absurd rfl hpk
    | cons x t =>
      simp only [peek, List.headD_cons] at hpk hsp
      have : (!isspace x && x != NUL) = true := by simp [hsp, hpk]
      simp [List.takeWhile_cons, this]
  refine ⟨hopt ▸ List.dropWhile_suffix _, hc' ▸ List.dropWhile_suffix _, ?_, ?_, ?_⟩ <;> omega

theorem cmdline_loop_length_le (fuel : Nat) :
    ∀ c : List Char, (cmdline_loop fuel c).length ≤ c.length := by
  induction fuel with
  | zero => intro c; simp [cmdline_loop]
  | succ fuel ih =>
    intro c
    rw [cmdline_loop]
    cases h : cmdline_next c with
    | none => simp
    | some r =>
      obtain ⟨c', option⟩ := r
      have := cmdline_next_lengths c c' option h
      have := ih c'
      simp only [List.length_cons]
      omega

theorem cmdline_next_nil : cmdline_next [] = none := by decide

theorem cmdline_loop_fuel (fuel1 : Nat) :
    ∀ (fuel2 : Nat) (c : List Char), c.length ≤ fuel1 → c.length ≤ fuel2 →
      cmdline_loop fuel1 c = cmdline_loop fuel2 c := by
  induction fuel1 with
  | zero =>
    intro fuel2 c h1 _
    have hc : c = [] := List.length_eq_zero.1 (Nat.le_zero.1 h1)
    subst hc
    cases fuel2 with
    | zero => rfl
    | succ n => simp [cmdline_loop, cmdline_next_nil]
  | succ fuel1 ih =>
    intro fuel2 c h1 h2
    cases fuel2 with
    | zero =>
      have hc : c = [] := List.length_eq_zero.1 (Nat.le_zero.1 h2)
      subst hc
      simp [cmdline_loop, cmdline_next_nil]
    | succ fuel2 =>
      rw [cmdline_loop, cmdline_loop]
      cases h : cmdline_next c with
      | none => rfl
      | some r =>
        obtain ⟨c', option⟩ := r
        have := cmdline_next_lengths c c' option h
        simp only
        rw [ih fuel2 c' (by omega) (by omega)]

/-- C20: whenever `cmdline_next` returns a cursor `c'` with token start
`option`, both are cursors into the same unchanged buffer (suffixes of the
cursor `c` it was given), `c ≤ option < c' ≤` the position of the terminating
NUL; hence the loop `while ((cmdline = cmdline_next(cmdline, &option)))` runs
its body at most `n` times on a buffer of `n` characters, and no amount of
fuel from `n` on changes what it does. -/
theorem cmdline_next_advances (c : List Char) :
    (∀ c' option : List Char, cmdline_next c = some (c', option) →
      option <:+ c ∧ c' <:+ option ∧
      c.length - option.length < c.length - c'.length ∧
      c.length - c'.length ≤ (cstring c).length) ∧
    (∀ fuel : Nat, (cmdline_loop fuel c).length ≤ c.length) ∧
    (∀ fuel : Nat, c.length ≤ fuel → cmdline_loop fuel c = cmdline_loop c.length c) := by
  refine ⟨?_, fun fuel => cmdline_loop_length_le fuel c,
    fun fuel h => cmdline_loop_fuel fuel c.length c h (le_refl _)⟩
  intro c' option h
  obtain ⟨h1, h2, h3, h4, h5⟩ := cmdline_next_lengths c c' option h
  exact ⟨h1, h2, by omega, h5⟩

/-- Witness of C20 on the buffer `" ab c"`. -/
theorem cmdline_next_advances_witness :
    " ab c".toList.length - "ab c".toList.length
      < " ab c".toList.length - " c".toList.length ∧
    " ab c".toList.length - " c".toList.length ≤ (cstring " ab c".toList).length :=
  ((cmdline_next_advances " ab c".toList).1 " c".toList "ab c".toList (by decide)).2.2

/-! ## Theorems: the array of `cmdline_ints` -/

theorem storeValues_length (vals : List Nat) :
    ∀ (i : Nat) (args : List Nat), (storeValues i vals args).length = args.length := by
  induction vals with
  | nil => intro i args; rfl
  | cons x xs ih => intro i args; rw [storeValues, ih, List.length_set]

theorem cmdline_ints_for_eq_values (n : Nat) :
    ∀ (i : Nat) (s : List Char) (args : List Nat),
      cmdline_ints_for n i s args
        = ((cmdline_ints_values n i s).1, storeValues i (cmdline_ints_values n i s).2 args) := by
  induction n with
  | zero => intro i s args; rfl
  | succ n ih =>
    intro i s args
    rw [cmdline_ints_for, cmdline_ints_values]
    by_cases h1 : peek (parse_int s).2 = NUL ∨ isspace (peek (parse_int s).2) = true
    · rw [if_pos h1, if_pos h1]; rfl
    · rw [if_neg h1, if_neg h1]
      by_cases h2 : peek (parse_int s).2 ≠ ','
      · rw [if_pos h2, if_pos h2]; rfl
      · rw [if_neg h2, if_neg h2, ih]; rfl

theorem cmdline_ints_values_count (n : Nat) :
    ∀ (i : Nat) (s : List Char), 0 < (cmdline_ints_values n i s).1 →
      (cmdline_ints_values n i s).1 = ((i + (cmdline_ints_values n i s).2.length : Nat) : Int) := by
  induction n with
  | zero => intro i s h; simp [cmdline_ints_values] at h
  | succ n ih =>
    intro i s
    rw [cmdline_ints_values]
    by_cases h1 : peek (parse_int s).2 = NUL ∨ isspace (peek (parse_int s).2) = true
    · rw [if_pos h1]; intro _; simp
    · rw [if_neg h1]
      by_cases h2 : peek (parse_int s).2 ≠ ','
      · rw [if_pos h2]
        intro h
        exfalso
        split at h <;> simp at h
      · rw [if_neg h2]
        intro h
        simp only at h ⊢
        rw [ih (i + 1) _ h]
        simp only [List.length_cons]
        congr 1
        omega

theorem cmdline_ints_length (option : List Char) (args : List Nat) (max : Int) :
    (cmdline_ints option args max).2.length = args.length := by
  rw [cmdline_ints, cmdline_ints_for_eq_values]
  exact storeValues_length _ _ _

theorem cmdline_ints_count_args (option : List Char) (args args' : List Nat) (max : Int) :
    (cmdline_ints option args max).1 = (cmdline_ints option args' max).1 := by
  rw [cmdline_ints, cmdline_ints, cmdline_ints_for_eq_values, cmdline_ints_for_eq_values]

theorem cmdline_ints_full_args (option : List Char) (args args' : List Nat) (n : Nat)
    (h : args.length = n) (h' : args'.length = n)
    (hc : (cmdline_ints option args (n : Int)).1 = (n : Int)) (hn : 0 < n) :
    (cmdline_ints option args (n : Int)).2 = (cmdline_ints option args' (n : Int)).2 := by
  rw [cmdline_ints, cmdline_ints_for_eq_values] at hc ⊢
  rw [cmdline_ints, cmdline_ints_for_eq_values]
  simp only [Int.toNat_ofNat] at hc ⊢
  have hpos : 0 < (cmdline_ints_values n 0 ((cmdline_ints_skip option).getD option)).1 := by
    rw [hc]; exact_mod_cast hn
  have hcount := cmdline_ints_values_count n 0 _ hpos
  rw [hc] at hcount
  have hlen : (cmdline_ints_values n 0 ((cmdline_ints_skip option).getD option)).2.length = n := by
    have : (n : Int) = ((cmdline_ints_values n 0
        ((cmdline_ints_skip option).getD option)).2.length : Int) := by
      rw [hcount]; simp
    exact_mod_cast this.symm
  rw [storeValues_eq _ _ _ (by omega), storeValues_eq _ _ _ (by omega)]
  simp only [List.take_zero, List.nil_append, Nat.zero_add, hlen]
  rw [List.drop_eq_nil_of_le (by omega), List.drop_eq_nil_of_le (by omega)]

/-! ## Theorems: memory map extraction -/

theorem ParseMemoryInfo_v2_body_eq (args : List Nat) (out : List MEMROY_MAP_ENTRY)
    (option : List Char) (h : args.length = 3) :
    (ParseMemoryInfo_v2_body (args, out) option).1.length = 3 ∧
    (ParseMemoryInfo_v2_body (args, out) option).2 = out ++ (memRangeOf option).toList := by
  unfold ParseMemoryInfo_v2_body memRangeOf
  by_cases hp : strncmp option "mem=".toList 4 ≠ 0
  · have hnp : ¬ ("mem=".toList <+: option) := fun hpre => hp ((strncmp_mem_iff option).2 hpre)
    rw [if_pos hp]
    simp only [hnp, false_and, if_false, Option.toList_none, List.append_nil]
    exact ⟨h, trivial⟩
  · have hpre : "mem=".toList <+: option := (strncmp_mem_iff option).1 (not_not.1 hp)
    rw [if_neg hp]
    have hcount := cmdline_ints_count_args option args [0, 0, 0] 3
    have hlen := cmdline_ints_length option args 3
    simp only at hcount hlen ⊢
    by_cases h3 : (cmdline_ints option args 3).1 ≠ 3
    · rw [if_pos h3]
      have h3' : ¬ (cmdline_ints option [0, 0, 0] 3).1 = 3 := by rw [← hcount]; exact h3
      simp only [h3', and_false, if_false, Option.toList_none, List.append_nil]
      exact ⟨by rw [hlen, h], trivial⟩
    · rw [if_neg h3]
      have h3e : (cmdline_ints option args 3).1 = 3 := not_not.1 h3
      have h3' : (cmdline_ints option [0, 0, 0] 3).1 = 3 := by rw [← hcount]; exact h3e
      have hargs := cmdline_ints_full_args option args [0, 0, 0] 3 h rfl h3e (by decide)
      simp only [Nat.cast_ofNat] at hargs
      simp only [hpre, h3', and_self, if_true, Option.toList_some, hargs]
      exact ⟨by rw [← hargs, hlen, h], trivial⟩

theorem ParseMemoryInfo_v2_fold (opts : List (List Char)) :
    ∀ (args : List Nat) (out : List MEMROY_MAP_ENTRY), args.length = 3 →
      (opts.foldl ParseMemoryInfo_v2_body (args, out)).2 = out ++ opts.filterMap memRangeOf := by
  induction opts with
  | nil => intro args out _; simp
  | cons o opts ih =>
    intro args out h
    obtain ⟨h1, h2⟩ := ParseMemoryInfo_v2_body_eq args out o h
    rw [List.foldl_cons]
    have hst : ParseMemoryInfo_v2_body (args, out) o
        = ((ParseMemoryInfo_v2_body (args, out) o).1, (ParseMemoryInfo_v2_body (args, out) o).2) :=
      rfl
    rw [hst, ih _ _ h1, h2]
    cases hm : memRangeOf o with
    | none => simp [List.filterMap_cons, hm]
    | some r => simp [List.filterMap_cons, hm]

theorem version2_ne_version1 : UEFI_PAYLOAD_CONFIG_VERSION2 ≠ UEFI_PAYLOAD_CONFIG_VERSION1 := by
  decide

theorem memRangeOf_none (option : List Char) (h : ¬ ("mem=".toList <+: option)) :
    memRangeOf option = none := by
  unfold memRangeOf
  simp only [h, false_and, if_false]

theorem filterMap_memRangeOf_nil (opts : List (List Char))
    (h : ∀ o ∈ opts, ¬ ("mem=".toList <+: o)) : opts.filterMap memRangeOf = [] := by
  induction opts with
  | nil => rfl
  | cons o opts ih =>
    rw [List.filterMap_cons, memRangeOf_none o (h o (List.mem_cons_self _ _))]
    exact ih (fun x hx => h x (List.mem_cons_of_mem _ hx))

theorem ParseMemoryInfo_v2_eq (blob : UefiPayloadConfig)
    (hv : blob.Version = UEFI_PAYLOAD_CONFIG_VERSION2) :
    ParseMemoryInfo blob
      = some (RETURN_STATUS.RETURN_SUCCESS,
          (cmdline_options blob.cmdline).filterMap memRangeOf) := by
  have h1 : blob.Version ≠ UEFI_PAYLOAD_CONFIG_VERSION1 := by
    rw [hv]; exact version2_ne_version1
  simp only [ParseMemoryInfo, GetUefiPayLoadConfig, hv, or_true, if_true]
  rw [if_neg (by rw [← hv]; exact h1)]
  rw [ParseMemoryInfo_v2_fold _ _ _ (by simp)]
  simp

set_option maxRecDepth 100000 in
/-- What the V2 branch of `ParseMemoryInfo` emits, stated over the token start
cursors: one range, in order, for each cursor `option` that begins with `mem=`
and for which `cmdline_ints(option, args, 3)` returns 3, namely the
normalization of the three stored values (the third converted to `int`).  The
count and, when the count is 3, the stored values do not depend on what `args`
held before.  Here `cmdline_ints` runs on the buffer from the token start on,
so it can read past the end of the token (see the last section).  E.g.
`"mem=1,2 mem=0,0x1000,1"` emits exactly one range, Base 0, Size 0x1000,
Type 1. -/
theorem ParseMemoryInfo_v2_emits (blob : UefiPayloadConfig)
    (hv : blob.Version = UEFI_PAYLOAD_CONFIG_VERSION2) :
    ParseMemoryInfo blob
      = some (RETURN_STATUS.RETURN_SUCCESS,
          (cmdline_options blob.cmdline).filterMap memRangeOf) ∧
    (∀ (option : List Char) (args : List Nat), args.length = 3 →
      memRangeOf option =
        if "mem=".toList <+: option ∧ (cmdline_ints option args 3).1 = 3 then
          some (AddMemoryRange ((cmdline_ints option args 3).2.getD 0 0)
            ((cmdline_ints option args 3).2.getD 1 0)
            (toInt32 ((cmdline_ints option args 3).2.getD 2 0)))
        else none) ∧
    ParseMemoryInfo (v2Blob "mem=1,2 mem=0,0x1000,1".toList)
      = some (RETURN_STATUS.RETURN_SUCCESS,
          [{ Base := 0, Size := 0x1000, Type_ := 1, Flag := 0 }]) := by
  refine ⟨ParseMemoryInfo_v2_eq blob hv, ?_, by decide⟩
  · intro option args hlen
    unfold memRangeOf
    have hcount := cmdline_ints_count_args option args [0, 0, 0] 3
    by_cases h3 : (cmdline_ints option args 3).1 = 3
    · have hargs := cmdline_ints_full_args option args [0, 0, 0] 3 hlen rfl h3 (by decide)
      simp only [Nat.cast_ofNat] at hargs
      simp only [← hcount, ← hargs]
    · have h3' : ¬ (cmdline_ints option [0, 0, 0] 3).1 = 3 := by rw [← hcount]; exact h3
      simp only [h3, h3', and_false, if_false]

/-- The emitted list of the V2 blob with command line `mem=0,0x1000,1`. -/
theorem ParseMemoryInfo_v2_emits_witness :
    ParseMemoryInfo (v2Blob "mem=0,0x1000,1".toList)
      = some (RETURN_STATUS.RETURN_SUCCESS,
          (cmdline_options (v2Blob "mem=0,0x1000,1".toList).cmdline).filterMap memRangeOf) :=
  (ParseMemoryInfo_v2_emits (v2Blob "mem=0,0x1000,1".toList) rfl).1

theorem ParseMemoryInfo_v1_for_eq (config1 : UefiPayloadConfigV1) (n : Nat) :
    ∀ i : Nat, ParseMemoryInfo_v1_for config1 n i
      = (List.range n).map (fun k =>
          AddMemoryRange (config1.MemoryMapEntries (i + k)).Start
            (config1.MemoryMapEntries (i + k)).End
            (toInt32 (config1.MemoryMapEntries (i + k)).Type_)) := by
  induction n with
  | zero => intro i; rfl
  | succ n ih =>
    intro i
    rw [ParseMemoryInfo_v1_for, ih, List.range_succ_eq_map, List.map_cons, List.map_map]
    simp only [Nat.add_zero, List.cons.injEq, true_and]
    apply List.map_congr_left
    intro k _
    simp only [Function.comp_apply]
    have : i + 1 + k = i + (k + 1) := by omega
    rw [this]

/-- C12: on a V1 blob with `NumMemoryMapEntries = N` (`N < 2 ^ 31`)
`ParseMemoryInfo` returns with success and calls the callback exactly `N`
times; the `i`-th call receives the normalization (`AddMemoryRange`) of entry
`i`, its `Type` converted to `int`: array order, nothing merged, dropped or
added. -/
theorem ParseMemoryInfo_v1_emits (blob : UefiPayloadConfig)
    (hv : blob.Version = UEFI_PAYLOAD_CONFIG_VERSION1)
    (_hN : blob.v1.NumMemoryMapEntries < 2 ^ 31) :
    ∃ ranges : List MEMROY_MAP_ENTRY,
      ParseMemoryInfo blob = some (RETURN_STATUS.RETURN_SUCCESS, ranges) ∧
      ranges.length = blob.v1.NumMemoryMapEntries ∧
      (∀ i : Nat, i < blob.v1.NumMemoryMapEntries →
        ranges[i]? = some (AddMemoryRange (blob.v1.MemoryMapEntries i).Start
          (blob.v1.MemoryMapEntries i).End (toInt32 (blob.v1.MemoryMapEntries i).Type_))) := by
  refine ⟨ParseMemoryInfo_v1_for blob.v1 blob.v1.NumMemoryMapEntries 0, ?_, ?_, ?_⟩
  · simp [ParseMemoryInfo, GetUefiPayLoadConfig, hv]
  · rw [ParseMemoryInfo_v1_for_eq]; simp
  · intro i hi
    rw [ParseMemoryInfo_v1_for_eq]
    simp [List.getElem?_map, List.getElem?_range hi]

/-- Witness of C12 on a V1 blob with the two memory map entries `(0x1001, 0x2000, Reserved)` and
`(0x100000, 0x200000, RAM)`. -/
theorem ParseMemoryInfo_v1_emits_witness :
    ∃ ranges : List MEMROY_MAP_ENTRY,
      ParseMemoryInfo
        { Version := 1
          v1 :=
            { AcpiBase := 0, AcpiSize := 0, SmbiosBase := 0, SmbiosSize := 0
              SerialConfig := ⟨0, 0, 0, 0, 0, 0⟩
              NumMemoryMapEntries := 2
              MemoryMapEntries := fun i =>
                if i = 0 then ⟨0x1001, 0x2000, 5⟩ else ⟨0x100000, 0x200000, 1⟩ }
          cmdline := [] } = some (RETURN_STATUS.RETURN_SUCCESS, ranges) ∧
      ranges.length = 2 :=
  (ParseMemoryInfo_v1_emits
    { Version := 1
      v1 :=
        { AcpiBase := 0, AcpiSize := 0, SmbiosBase := 0, SmbiosSize := 0
          SerialConfig := ⟨0, 0, 0, 0, 0, 0⟩
          NumMemoryMapEntries := 2
          MemoryMapEntries := fun i =>
            if i = 0 then ⟨0x1001, 0x2000, 5⟩ else ⟨0x100000, 0x200000, 1⟩ }
      cmdline := [] } rfl (by decide)).imp fun _ h => ⟨h.1, h.2.1⟩

/-! ## Theorems: V1 field copies and return status -/

/-- C13: on a V1 blob `ParseSystemTable` sets the four table fields to the
blob's `AcpiBase`, `AcpiSize`, `SmbiosBase`, `SmbiosSize`, and `ParseSerialInfo`
sets the six serial fields to the `SerialConfig` fields of the same names,
whatever the output structs held before the call. -/
theorem V1_field_copies (blob : UefiPayloadConfig)
    (hv : blob.Version = UEFI_PAYLOAD_CONFIG_VERSION1)
    (SystemTableInfo : SYSTEM_TABLE_INFO) (SerialPortInfo : SERIAL_PORT_INFO) :
    ParseSystemTable blob SystemTableInfo
      = some (RETURN_STATUS.RETURN_SUCCESS,
          { AcpiTableBase := blob.v1.AcpiBase
            AcpiTableSize := blob.v1.AcpiSize
            SmbiosTableBase := blob.v1.SmbiosBase
            SmbiosTableSize := blob.v1.SmbiosSize }) ∧
    ParseSerialInfo blob SerialPortInfo
      = some (RETURN_STATUS.RETURN_SUCCESS,
          { Type_ := blob.v1.SerialConfig.Type_
            BaseAddr := blob.v1.SerialConfig.BaseAddr
            Baud := blob.v1.SerialConfig.Baud
            RegWidth := blob.v1.SerialConfig.RegWidth
            InputHertz := blob.v1.SerialConfig.InputHertz
            UartPciAddr := blob.v1.SerialConfig.UartPciAddr }) := by
  constructor
  · simp [ParseSystemTable, GetUefiPayLoadConfig, hv]
  · simp [ParseSerialInfo, GetUefiPayLoadConfig, hv]

/-- Witness of C13 on a V1 blob with distinct field values. -/
theorem V1_field_copies_witness :
    ParseSystemTable
        { Version := 1
          v1 :=
            { AcpiBase := 0xE0000, AcpiSize := 0x20000, SmbiosBase := 0xF0000, SmbiosSize := 0x100
              SerialConfig := ⟨2, 0x2f8, 9600, 4, 1000000, 7⟩
              NumMemoryMapEntries := 0
              MemoryMapEntries := fun _ => ⟨0, 0, 0⟩ }
          cmdline := [] } ⟨1, 2, 3, 4⟩
      = some (RETURN_STATUS.RETURN_SUCCESS, ⟨0xE0000, 0x20000, 0xF0000, 0x100⟩) :=
  (V1_field_copies
    { Version := 1
      v1 :=
        { AcpiBase := 0xE0000, AcpiSize := 0x20000, SmbiosBase := 0xF0000, SmbiosSize := 0x100
          SerialConfig := ⟨2, 0x2f8, 9600, 4, 1000000, 7⟩
          NumMemoryMapEntries := 0
          MemoryMapEntries := fun _ => ⟨0, 0, 0⟩ }
      cmdline := [] } rfl ⟨1, 2, 3, 4⟩ ⟨0, 0, 0, 0, 0, 0⟩).1

/-- C18: the outcome of the three extraction calls is decided by the version
tag alone.  With `Version` 1 or `0x31746f6f42786e4c`, `GetUefiPayLoadConfig`
returns the blob and `ParseMemoryInfo`, `ParseSystemTable` and
`ParseSerialInfo` each return `RETURN_SUCCESS`, whatever the blob holds; with
any other `Version`, `GetUefiPayLoadConfig` does not return and neither does
any of the three; so whenever one of them returns, the status is
`RETURN_SUCCESS`. -/
theorem extraction_status (blob : UefiPayloadConfig)
    (SystemTableInfo : SYSTEM_TABLE_INFO) (SerialPortInfo : SERIAL_PORT_INFO) :
    (blob.Version = 1 ∨ blob.Version = 0x31746f6f42786e4c →
      GetUefiPayLoadConfig blob = some blob ∧
      (ParseMemoryInfo blob).map Prod.fst = some RETURN_STATUS.RETURN_SUCCESS ∧
      (ParseSystemTable blob SystemTableInfo).map Prod.fst
        = some RETURN_STATUS.RETURN_SUCCESS ∧
      (ParseSerialInfo blob SerialPortInfo).map Prod.fst
        = some RETURN_STATUS.RETURN_SUCCESS) ∧
    (¬ (blob.Version = 1 ∨ blob.Version = 0x31746f6f42786e4c) →
      GetUefiPayLoadConfig blob = none ∧
      ParseMemoryInfo blob = none ∧
      ParseSystemTable blob SystemTableInfo = none ∧
      ParseSerialInfo blob SerialPortInfo = none) ∧
    (∀ r, ParseMemoryInfo blob = some r → r.1 = RETURN_STATUS.RETURN_SUCCESS) ∧
    (∀ r, ParseSystemTable blob SystemTableInfo = some r →
      r.1 = RETURN_STATUS.RETURN_SUCCESS) ∧
    (∀ r, ParseSerialInfo blob SerialPortInfo = some r →
      r.1 = RETURN_STATUS.RETURN_SUCCESS) := by
  have hget : ∀ h : blob.Version = 1 ∨ blob.Version = 0x31746f6f42786e4c,
      GetUefiPayLoadConfig blob = some blob := by
    intro h
    simp only [GetUefiPayLoadConfig, UEFI_PAYLOAD_CONFIG_VERSION1, UEFI_PAYLOAD_CONFIG_VERSION2]
    rw [if_pos h]
  have hnone : ∀ h : ¬ (blob.Version = 1 ∨ blob.Version = 0x31746f6f42786e4c),
      GetUefiPayLoadConfig blob = none := by
    intro h
    simp only [GetUefiPayLoadConfig, UEFI_PAYLOAD_CONFIG_VERSION1, UEFI_PAYLOAD_CONFIG_VERSION2]
    rw [if_neg h]
  have hmem : ∀ r, ParseMemoryInfo blob = some r → r.1 = RETURN_STATUS.RETURN_SUCCESS := by
    intro r hr
    unfold ParseMemoryInfo at hr
    cases hg : GetUefiPayLoadConfig blob with
    | none => rw [hg] at hr; exact Option.noConfusion hr
    | some config =>
      rw [hg] at hr
      simp only at hr
      split_ifs at hr <;> (cases hr; rfl)
  have hsys : ∀ r, ParseSystemTable blob SystemTableInfo = some r →
      r.1 = RETURN_STATUS.RETURN_SUCCESS := by
    intro r hr
    unfold ParseSystemTable at hr
    cases hg : GetUefiPayLoadConfig blob with
    | none => rw [hg] at hr; exact Option.noConfusion hr
    | some config =>
      rw [hg] at hr
      simp only at hr
      split_ifs at hr <;> (cases hr; rfl)
  have hser : ∀ r, ParseSerialInfo blob SerialPortInfo = some r →
      r.1 = RETURN_STATUS.RETURN_SUCCESS := by
    intro r hr
    unfold ParseSerialInfo at hr
    cases hg : GetUefiPayLoadConfig blob with
    | none => rw [hg] at hr; exact Option.noConfusion hr
    | some config =>
      rw [hg] at hr
      simp only at hr
      split_ifs at hr <;> (cases hr; rfl)
  refine ⟨fun h => ⟨hget h, ?_, ?_, ?_⟩, fun h => ⟨hnone h, ?_, ?_, ?_⟩, hmem, hsys, hser⟩
  · cases hp : ParseMemoryInfo blob with
    | none =>
      exfalso
      unfold ParseMemoryInfo at hp
      rw [hget h] at hp
      simp only at hp
      split_ifs at hp
    | some r => rw [Option.map_some', hmem r hp]
  · cases hp : ParseSystemTable blob SystemTableInfo with
    | none =>
      exfalso
      unfold ParseSystemTable at hp
      rw [hget h] at hp
      simp only at hp
      split_ifs at hp
    | some r => rw [Option.map_some', hsys r hp]
  · cases hp : ParseSerialInfo blob SerialPortInfo with
    | none =>
      exfalso
      unfold ParseSerialInfo at hp
      rw [hget h] at hp
      simp only at hp
      split_ifs at hp
    | some r => rw [Option.map_some', hser r hp]
  · unfold ParseMemoryInfo; rw [hnone h]
  · unfold ParseSystemTable; rw [hnone h]
  · unfold ParseSerialInfo; rw [hnone h]

/-- Witness of C18 on a V2 blob with malformed tokens. -/
theorem extraction_status_witness :
    GetUefiPayLoadConfig (v2Blob "mem=1;2 serial=x ACPI20=1,2,3".toList)
        = some (v2Blob "mem=1;2 serial=x ACPI20=1,2,3".toList) ∧
    (ParseMemoryInfo (v2Blob "mem=1;2 serial=x ACPI20=1,2,3".toList)).map Prod.fst
        = some RETURN_STATUS.RETURN_SUCCESS ∧
    (ParseSystemTable (v2Blob "mem=1;2 serial=x ACPI20=1,2,3".toList) ⟨1, 2, 3, 4⟩).map Prod.fst
        = some RETURN_STATUS.RETURN_SUCCESS ∧
    (ParseSerialInfo (v2Blob "mem=1;2 serial=x ACPI20=1,2,3".toList)
        ⟨0, 0, 0, 0, 0, 0⟩).map Prod.fst
        = some RETURN_STATUS.RETURN_SUCCESS :=
  (extraction_status (v2Blob "mem=1;2 serial=x ACPI20=1,2,3".toList) ⟨1, 2, 3, 4⟩
    ⟨0, 0, 0, 0, 0, 0⟩).1 (Or.inr rfl)

/-! ## Theorems: system table overrides -/

theorem cmdline_ints_token (key : List Char) (vs : List (List Char)) (rest : List Char)
    (args : List Nat) (max : Int) (hkey : isKey key = true)
    (hvs : ∀ v ∈ vs, wellFormedValue v = true) (hk : 1 ≤ vs.length)
    (hmax : (vs.length : Int) ≤ max)
    (hrest : peek rest = NUL ∨ isspace (peek rest) = true) :
    cmdline_ints (key ++ '=' :: (List.intercalate [','] vs ++ rest)) args max
      = ((vs.length : Int), storeValues 0 (vs.map valueOf) args) := by
  have hne : vs ≠ [] := by
    intro h; rw [h] at hk; simp at hk
  rw [cmdline_ints, cmdline_ints_skip_key key _ hkey]
  show cmdline_ints_for max.toNat 0 (List.intercalate [','] vs ++ rest) args = _
  rw [cmdline_ints_for_values vs max.toNat 0 args rest hne hvs (by omega) hrest]
  simp

theorem ParseSystemTable_v2_body_length (st : SYSTEM_TABLE_INFO × List Nat)
    (option : List Char) :
    (ParseSystemTable_v2_body st option).2.length = st.2.length := by
  have hs : ∀ st' : SYSTEM_TABLE_INFO × List Nat,
      (ParseSystemTable_smbios st' option).2.length = st'.2.length := by
    intro st'
    unfold ParseSystemTable_smbios
    by_cases hp : strncmp option "SMBIOS=".toList 7 = 0
    · rw [if_pos hp]
      by_cases hneg : (cmdline_ints option st'.2 2).1 < 0
      · simp [hneg, cmdline_ints_length]
      · simp [hneg, cmdline_ints_length]
    · rw [if_neg hp]
  unfold ParseSystemTable_v2_body
  by_cases hp : strncmp option "ACPI20=".toList 7 = 0
  · rw [if_pos hp]
    by_cases hneg : (cmdline_ints option st.2 2).1 < 0
    · simp [hneg, cmdline_ints_length]
    · simp only [hneg, if_false]
      rw [hs]
      simp [cmdline_ints_length]
  · rw [if_neg hp]
    exact hs st

theorem ParseSystemTable_v2_body_noop (st : SYSTEM_TABLE_INFO × List Nat)
    (option : List Char) (ha : ¬ ("ACPI20=".toList <+: option))
    (hs : ¬ ("SMBIOS=".toList <+: option)) :
    ParseSystemTable_v2_body st option = st := by
  have h1 : ¬ (strncmp option "ACPI20=".toList 7 = 0) :=
    fun h => ha ((strncmp_acpi_iff option).1 h)
  have h2 : ¬ (strncmp option "SMBIOS=".toList 7 = 0) :=
    fun h => hs ((strncmp_smbios_iff option).1 h)
  rw [ParseSystemTable_v2_body, if_neg h1, ParseSystemTable_smbios, if_neg h2]

theorem ParseSystemTable_v2_fold_noop (opts : List (List Char))
    (h : ∀ o ∈ opts, ¬ ("ACPI20=".toList <+: o) ∧ ¬ ("SMBIOS=".toList <+: o)) :
    ∀ st : SYSTEM_TABLE_INFO × List Nat, opts.foldl ParseSystemTable_v2_body st = st := by
  induction opts with
  | nil => intro st; rfl
  | cons o opts ih =>
    intro st
    rw [List.foldl_cons,
      ParseSystemTable_v2_body_noop st o (h o (List.mem_cons_self _ _)).1
        (h o (List.mem_cons_self _ _)).2]
    exact ih (fun x hx => h x (List.mem_cons_of_mem _ hx)) st

theorem not_prefix_of_head_ne (key option : List Char) (k c : Char) (ks t : List Char)
    (hkey : key = k :: ks) (hopt : option = c :: t) (hne : k ≠ c) : ¬ (key <+: option) := by
  subst hkey hopt
  rintro ⟨r, hr⟩
  simp only [List.cons_append, List.cons.injEq] at hr
  exact hne hr.1

theorem ParseSystemTable_v2_body_acpi (info : SYSTEM_TABLE_INFO) (a0 a1 : Nat)
    (vs : List (List Char)) (rest : List Char)
    (hvs : ∀ v ∈ vs, wellFormedValue v = true) (hk : 1 ≤ vs.length) (hk2 : vs.length ≤ 2)
    (hrest : peek rest = NUL ∨ isspace (peek rest) = true) :
    (ParseSystemTable_v2_body (info, [a0, a1])
        ("ACPI20=".toList ++ (List.intercalate [','] vs ++ rest))).1
      = { info with
          AcpiTableBase := valueOf (vs.getD 0 [])
          AcpiTableSize := if vs.length = 2 then valueOf (vs.getD 1 []) else info.AcpiTableSize } := by
  have htok : "ACPI20=".toList ++ (List.intercalate [','] vs ++ rest)
      = "ACPI20".toList ++ '=' :: (List.intercalate [','] vs ++ rest) := rfl
  have hp : strncmp ("ACPI20=".toList ++ (List.intercalate [','] vs ++ rest))
      "ACPI20=".toList 7 = 0 := (strncmp_acpi_iff _).2 ⟨_, rfl⟩
  have hns : ¬ (strncmp ("ACPI20=".toList ++ (List.intercalate [','] vs ++ rest))
      "SMBIOS=".toList 7 = 0) := by
    intro h
    exact not_prefix_of_head_ne _ _ 'S' 'A' _ _ rfl rfl (by decide) ((strncmp_smbios_iff _).1 h)
  have hints := cmdline_ints_token "ACPI20".toList vs rest [a0, a1] 2 (by decide) hvs hk
    (by exact_mod_cast hk2) hrest
  rw [← htok] at hints
  rw [ParseSystemTable_v2_body, if_pos hp]
  simp only [hints]
  rw [ParseSystemTable_smbios, if_neg hns]
  match vs, hk, hk2 with
  | [v], _, _ => simp [storeValues]
  | [v, w], _, _ => simp [storeValues]

theorem ParseSystemTable_v2_body_smbios (info : SYSTEM_TABLE_INFO) (a0 a1 : Nat)
    (vs : List (List Char)) (rest : List Char)
    (hvs : ∀ v ∈ vs, wellFormedValue v = true) (hk : 1 ≤ vs.length) (hk2 : vs.length ≤ 2)
    (hrest : peek rest = NUL ∨ isspace (peek rest) = true) :
    (ParseSystemTable_v2_body (info, [a0, a1])
        ("SMBIOS=".toList ++ (List.intercalate [','] vs ++ rest))).1
      = { info with
          SmbiosTableBase := valueOf (vs.getD 0 [])
          SmbiosTableSize :=
            if vs.length = 2 then valueOf (vs.getD 1 []) else info.SmbiosTableSize } := by
  have htok : "SMBIOS=".toList ++ (List.intercalate [','] vs ++ rest)
      = "SMBIOS".toList ++ '=' :: (List.intercalate [','] vs ++ rest) := rfl
  have hp : strncmp ("SMBIOS=".toList ++ (List.intercalate [','] vs ++ rest))
      "SMBIOS=".toList 7 = 0 := (strncmp_smbios_iff _).2 ⟨_, rfl⟩
  have hna : ¬ (strncmp ("SMBIOS=".toList ++ (List.intercalate [','] vs ++ rest))
      "ACPI20=".toList 7 = 0) := by
    intro h
    exact not_prefix_of_head_ne _ _ 'A' 'S' _ _ rfl rfl (by decide) ((strncmp_acpi_iff _).1 h)
  have hints := cmdline_ints_token "SMBIOS".toList vs rest [a0, a1] 2 (by decide) hvs hk
    (by exact_mod_cast hk2) hrest
  rw [← htok] at hints
  rw [ParseSystemTable_v2_body, if_neg hna, ParseSystemTable_smbios, if_pos hp]
  simp only [hints]
  match vs, hk, hk2 with
  | [v], _, _ => simp [storeValues]
  | [v, w], _, _ => simp [storeValues]

theorem ParseSystemTable_v2_body_smbios_frame (st : SYSTEM_TABLE_INFO × List Nat)
    (option : List Char) (hs : ¬ ("SMBIOS=".toList <+: option)) :
    (ParseSystemTable_v2_body st option).1.SmbiosTableBase = st.1.SmbiosTableBase ∧
    (ParseSystemTable_v2_body st option).1.SmbiosTableSize = st.1.SmbiosTableSize := by
  have h2 : ¬ (strncmp option "SMBIOS=".toList 7 = 0) :=
    fun h => hs ((strncmp_smbios_iff option).1 h)
  unfold ParseSystemTable_v2_body
  simp only [ParseSystemTable_smbios, if_neg h2]
  split_ifs <;> simp

theorem ParseSystemTable_v2_fold_smbios_frame (opts : List (List Char))
    (h : ∀ o ∈ opts, ¬ ("SMBIOS=".toList <+: o)) :
    ∀ st : SYSTEM_TABLE_INFO × List Nat,
      (opts.foldl ParseSystemTable_v2_body st).1.SmbiosTableBase = st.1.SmbiosTableBase ∧
      (opts.foldl ParseSystemTable_v2_body st).1.SmbiosTableSize = st.1.SmbiosTableSize := by
  induction opts with
  | nil => intro st; exact ⟨rfl, rfl⟩
  | cons o opts ih =>
    intro st
    rw [List.foldl_cons]
    have h1 := ih (fun x hx => h x (List.mem_cons_of_mem _ hx)) (ParseSystemTable_v2_body st o)
    have h2 := ParseSystemTable_v2_body_smbios_frame st o (h o (List.mem_cons_self _ _))
    exact ⟨h1.1.trans h2.1, h1.2.trans h2.2⟩

theorem ParseSystemTable_v2_fold_length (opts : List (List Char)) :
    ∀ st : SYSTEM_TABLE_INFO × List Nat,
      (opts.foldl ParseSystemTable_v2_body st).2.length = st.2.length := by
  induction opts with
  | nil => intro st; rfl
  | cons o opts ih =>
    intro st
    rw [List.foldl_cons, ih, ParseSystemTable_v2_body_length]

theorem ParseSystemTable_v2_eq (blob : UefiPayloadConfig)
    (hv : blob.Version = UEFI_PAYLOAD_CONFIG_VERSION2) (info : SYSTEM_TABLE_INFO) :
    ParseSystemTable blob info
      = some (RETURN_STATUS.RETURN_SUCCESS,
          ((cmdline_options blob.cmdline).foldl ParseSystemTable_v2_body
            (info, [0, 0])).1) := by
  have h1 : ¬ (blob.Version = UEFI_PAYLOAD_CONFIG_VERSION1) := by
    rw [hv]; exact version2_ne_version1
  simp only [ParseSystemTable, GetUefiPayLoadConfig, hv, or_true, if_true]
  rw [if_neg (by rw [← hv]; exact h1)]
  rfl

/-- C14: on a V2 command line whose only token beginning with `ACPI20=` or
`SMBIOS=` is `ACPI20=<b>` (one well-formed value), `ParseSystemTable` sets
`AcpiTableBase` to the value of `b` and leaves the other three fields as they
were before the call; when that token is `ACPI20=<b>,<s>` it sets
`AcpiTableBase` and `AcpiTableSize` and leaves both Smbios fields as they
were. -/
theorem ParseSystemTable_acpi_override (blob : UefiPayloadConfig)
    (hv : blob.Version = UEFI_PAYLOAD_CONFIG_VERSION2) (info : SYSTEM_TABLE_INFO)
    (l1 l2 : List (List Char)) (b s rest : List Char)
    (hother : ∀ o ∈ l1 ++ l2, ¬ ("ACPI20=".toList <+: o) ∧ ¬ ("SMBIOS=".toList <+: o))
    (hb : wellFormedValue b = true) (hs : wellFormedValue s = true)
    (hrest : peek rest = NUL ∨ isspace (peek rest) = true) :
    (cmdline_options blob.cmdline = l1 ++ ("ACPI20=".toList ++ (b ++ rest)) :: l2 →
      ParseSystemTable blob info
        = some (RETURN_STATUS.RETURN_SUCCESS, { info with AcpiTableBase := valueOf b })) ∧
    (cmdline_options blob.cmdline
        = l1 ++ ("ACPI20=".toList ++ (b ++ ',' :: (s ++ rest))) :: l2 →
      ParseSystemTable blob info
        = some (RETURN_STATUS.RETURN_SUCCESS,
            { info with AcpiTableBase := valueOf b, AcpiTableSize := valueOf s })) := by
  have h1 : ∀ o ∈ l1, ¬ ("ACPI20=".toList <+: o) ∧ ¬ ("SMBIOS=".toList <+: o) :=
    fun o ho => hother o (List.mem_append_left _ ho)
  have h2 : ∀ o ∈ l2, ¬ ("ACPI20=".toList <+: o) ∧ ¬ ("SMBIOS=".toList <+: o) :=
    fun o ho => hother o (List.mem_append_right _ ho)
  constructor
  · intro hopts
    rw [ParseSystemTable_v2_eq blob hv, hopts, List.foldl_append, List.foldl_cons,
      ParseSystemTable_v2_fold_noop l1 h1, ParseSystemTable_v2_fold_noop l2 h2]
    have := ParseSystemTable_v2_body_acpi info 0 0 [b] rest
      (by intro v hv'; simp only [List.mem_singleton] at hv'; rw [hv']; exact hb)
      (by simp) (by simp) hrest
    rw [intercalate_single] at this
    rw [this]
    simp
  · intro hopts
    rw [ParseSystemTable_v2_eq blob hv, hopts, List.foldl_append, List.foldl_cons,
      ParseSystemTable_v2_fold_noop l1 h1, ParseSystemTable_v2_fold_noop l2 h2]
    have := ParseSystemTable_v2_body_acpi info 0 0 [b, s] rest
      (by
        intro v hv'
        simp only [List.mem_cons, List.mem_singleton, List.not_mem_nil, or_false] at hv'
        rcases hv' with rfl | rfl
        · exact hb
        · exact hs)
      (by simp) (by simp) hrest
    rw [intercalate_cons_cons, intercalate_single, List.append_assoc, List.cons_append] at this
    rw [this]
    simp

set_option maxRecDepth 100000 in
/-- Witness of C14 on the command line `foo ACPI20=0xE0000 bar`. -/
theorem ParseSystemTable_acpi_override_witness :
    ParseSystemTable (v2Blob "foo ACPI20=0xE0000 bar".toList) ⟨1, 2, 3, 4⟩
      = some (RETURN_STATUS.RETURN_SUCCESS,
          { (⟨1, 2, 3, 4⟩ : SYSTEM_TABLE_INFO) with AcpiTableBase := valueOf "0xE0000".toList }) :=
  (ParseSystemTable_acpi_override (v2Blob "foo ACPI20=0xE0000 bar".toList) rfl ⟨1, 2, 3, 4⟩
    ["foo ACPI20=0xE0000 bar".toList] ["bar".toList] "0xE0000".toList "0".toList " bar".toList
    (by decide) (by decide) (by decide) (by decide)).1 (by decide)

set_option maxRecDepth 100000 in
/-- C15: on a V2 command line in which a token `SMBIOS=<a>,<b>` is followed
(other tokens in between and after not beginning with `SMBIOS=`) by a second
token `SMBIOS=<c>`, `ParseSystemTable` ends with `SmbiosTableBase` the value
of `c` and `SmbiosTableSize` the value of `b`, the first token's size; when the
second token is `SMBIOS=<c>,<d>` it ends with the values of `c` and `d`.  E.g.
`"SMBIOS=1,2 SMBIOS=3"` ends with base 3, size 2 and `"SMBIOS=1,2 SMBIOS=3,4"`
with base 3, size 4. -/
theorem ParseSystemTable_smbios_last_wins (blob : UefiPayloadConfig)
    (hv : blob.Version = UEFI_PAYLOAD_CONFIG_VERSION2) (info : SYSTEM_TABLE_INFO)
    (l1 l2 l3 : List (List Char)) (a b c d rest1 rest2 : List Char)
    (hother : ∀ o ∈ l2 ++ l3, ¬ ("SMBIOS=".toList <+: o))
    (ha : wellFormedValue a = true) (hb : wellFormedValue b = true)
    (hc : wellFormedValue c = true) (hd : wellFormedValue d = true)
    (hrest1 : peek rest1 = NUL ∨ isspace (peek rest1) = true)
    (hrest2 : peek rest2 = NUL ∨ isspace (peek rest2) = true) :
    (cmdline_options blob.cmdline
        = l1 ++ ("SMBIOS=".toList ++ (a ++ ',' :: (b ++ rest1))) ::
            (l2 ++ ("SMBIOS=".toList ++ (c ++ rest2)) :: l3) →
      ∃ out : SYSTEM_TABLE_INFO,
        ParseSystemTable blob info = some (RETURN_STATUS.RETURN_SUCCESS, out) ∧
        out.SmbiosTableBase = valueOf c ∧ out.SmbiosTableSize = valueOf b) ∧
    (cmdline_options blob.cmdline
        = l1 ++ ("SMBIOS=".toList ++ (a ++ ',' :: (b ++ rest1))) ::
            (l2 ++ ("SMBIOS=".toList ++ (c ++ ',' :: (d ++ rest2))) :: l3) →
      ∃ out : SYSTEM_TABLE_INFO,
        ParseSystemTable blob info = some (RETURN_STATUS.RETURN_SUCCESS, out) ∧
        out.SmbiosTableBase = valueOf c ∧ out.SmbiosTableSize = valueOf d) ∧
    ParseSystemTable (v2Blob "SMBIOS=1,2 SMBIOS=3".toList) ⟨6, 7, 8, 9⟩
      = some (RETURN_STATUS.RETURN_SUCCESS, ⟨6, 7, 3, 2⟩) ∧
    ParseSystemTable (v2Blob "SMBIOS=1,2 SMBIOS=3,4".toList) ⟨6, 7, 8, 9⟩
      = some (RETURN_STATUS.RETURN_SUCCESS, ⟨6, 7, 3, 4⟩) := by
  have h2 : ∀ o ∈ l2, ¬ ("SMBIOS=".toList <+: o) :=
    fun o ho => hother o (List.mem_append_left _ ho)
  have h3 : ∀ o ∈ l3, ¬ ("SMBIOS=".toList <+: o) :=
    fun o ho => hother o (List.mem_append_right _ ho)
  have hab : ∀ v ∈ [a, b], wellFormedValue v = true := by
    intro v hv'
    simp only [List.mem_cons, List.mem_singleton, List.not_mem_nil, or_false] at hv'
    rcases hv' with rfl | rfl
    · exact ha
    · exact hb
  have hcd : ∀ v ∈ [c, d], wellFormedValue v = true := by
    intro v hv'
    simp only [List.mem_cons, List.mem_singleton, List.not_mem_nil, or_false] at hv'
    rcases hv' with rfl | rfl
    · exact hc
    · exact hd
  have hc1 : ∀ v ∈ [c], wellFormedValue v = true := by
    intro v hv'; simp only [List.mem_singleton] at hv'; rw [hv']; exact hc
  -- the state after the first token, then after the tokens in between
  have step : ∀ (vs : List (List Char)), (∀ v ∈ vs, wellFormedValue v = true) →
      1 ≤ vs.length → vs.length ≤ 2 →
      ∀ st0 : SYSTEM_TABLE_INFO × List Nat, st0.2.length = 2 →
      ((l2 ++ ("SMBIOS=".toList ++ (List.intercalate [','] vs ++ rest2)) :: l3).foldl
          ParseSystemTable_v2_body
          (ParseSystemTable_v2_body st0
            ("SMBIOS=".toList ++ (List.intercalate [','] [a, b] ++ rest1)))).1.SmbiosTableBase
        = valueOf (vs.getD 0 []) ∧
      ((l2 ++ ("SMBIOS=".toList ++ (List.intercalate [','] vs ++ rest2)) :: l3).foldl
          ParseSystemTable_v2_body
          (ParseSystemTable_v2_body st0
            ("SMBIOS=".toList ++ (List.intercalate [','] [a, b] ++ rest1)))).1.SmbiosTableSize
        = if vs.length = 2 then valueOf (vs.getD 1 []) else valueOf b := by
    intro vs hvs hk hk2 st0 hlen0
    obtain ⟨info0, args0⟩ := st0
    obtain ⟨x0, x1, rfl⟩ : ∃ x0 x1, args0 = [x0, x1] := by
      match args0, hlen0 with
      | [x0, x1], _ => exact ⟨x0, x1, rfl⟩
    have e1 := ParseSystemTable_v2_body_smbios info0 x0 x1 [a, b] rest1 hab (by simp) (by simp)
      hrest1
    generalize hst1 : ParseSystemTable_v2_body (info0, [x0, x1])
      ("SMBIOS=".toList ++ (List.intercalate [','] [a, b] ++ rest1)) = st1 at e1 ⊢
    have hlen1 : st1.2.length = 2 := by
      rw [← hst1, ParseSystemTable_v2_body_length]; rfl
    rw [List.foldl_append, List.foldl_cons]
    have f2 := ParseSystemTable_v2_fold_smbios_frame l2 h2 st1
    have hlen2 := ParseSystemTable_v2_fold_length l2 st1
    generalize hst2 : l2.foldl ParseSystemTable_v2_body st1 = st2 at f2 hlen2 ⊢
    obtain ⟨info2, args2⟩ := st2
    obtain ⟨y0, y1, rfl⟩ : ∃ y0 y1, args2 = [y0, y1] := by
      have : args2.length = 2 := by rw [← hlen1]; exact hlen2
      match args2, this with
      | [y0, y1], _ => exact ⟨y0, y1, rfl⟩
    have e3 := ParseSystemTable_v2_body_smbios info2 y0 y1 vs rest2 hvs hk hk2 hrest2
    have f3 := ParseSystemTable_v2_fold_smbios_frame l3 h3
      (ParseSystemTable_v2_body (info2, [y0, y1])
        ("SMBIOS=".toList ++ (List.intercalate [','] vs ++ rest2)))
    rw [f3.1, f3.2, e3]
    simp only at f2 ⊢
    refine ⟨trivial, ?_⟩
    rw [f2.2, e1]
    simp
  have hlen00 : ((l1.foldl ParseSystemTable_v2_body (info, [0, 0])).2).length = 2 := by
    rw [ParseSystemTable_v2_fold_length]; rfl
  refine ⟨?_, ?_, by decide, by decide⟩
  · intro hopts
    refine ⟨_, ParseSystemTable_v2_eq blob hv info, ?_⟩
    rw [hopts, List.foldl_append, List.foldl_cons]
    have := step [c] hc1 (by simp) (by simp) _ hlen00
    simp only [intercalate_cons_cons, intercalate_single, List.append_assoc,
      List.cons_append] at this
    simpa using this
  · intro hopts
    refine ⟨_, ParseSystemTable_v2_eq blob hv info, ?_⟩
    rw [hopts, List.foldl_append, List.foldl_cons]
    have := step [c, d] hcd (by simp) (by simp) _ hlen00
    simp only [intercalate_cons_cons, intercalate_single, List.append_assoc,
      List.cons_append] at this
    simpa using this

set_option maxRecDepth 100000 in
/-- Witness of C15 on the command line `SMBIOS=1,2 SMBIOS=3`. -/
theorem ParseSystemTable_smbios_last_wins_witness :
    ∃ out : SYSTEM_TABLE_INFO,
      ParseSystemTable (v2Blob "SMBIOS=1,2 SMBIOS=3".toList) ⟨6, 7, 8, 9⟩
        = some (RETURN_STATUS.RETURN_SUCCESS, out) ∧
      out.SmbiosTableBase = valueOf "3".toList ∧ out.SmbiosTableSize = valueOf "2".toList :=
  (ParseSystemTable_smbios_last_wins (v2Blob "SMBIOS=1,2 SMBIOS=3".toList) rfl ⟨6, 7, 8, 9⟩
    [] [] [] "1".toList "2".toList "3".toList "0".toList " SMBIOS=3".toList []
    (by decide) (by decide) (by decide) (by decide) (by decide) (by decide)
    (by decide)).1 (by decide)

/-! ## Theorems: serial port -/

theorem ParseSerialInfo_v2_body_noop (st : SERIAL_PORT_INFO × List Nat)
    (option : List Char) (hs : ¬ ("serial=".toList <+: option)) :
    ParseSerialInfo_v2_body st option = st := by
  have h1 : strncmp option "serial=".toList 7 ≠ 0 :=
    fun h => hs ((strncmp_serial_iff option).1 h)
  rw [ParseSerialInfo_v2_body, if_pos h1]

theorem ParseSerialInfo_v2_fold_noop (opts : List (List Char))
    (h : ∀ o ∈ opts, ¬ ("serial=".toList <+: o)) :
    ∀ st : SERIAL_PORT_INFO × List Nat, opts.foldl ParseSerialInfo_v2_body st = st := by
  induction opts with
  | nil => intro st; rfl
  | cons o opts ih =>
    intro st
    rw [List.foldl_cons, ParseSerialInfo_v2_body_noop st o (h o (List.mem_cons_self _ _))]
    exact ih (fun x hx => h x (List.mem_cons_of_mem _ hx)) st

theorem ParseSerialInfo_v2_eq (blob : UefiPayloadConfig)
    (hv : blob.Version = UEFI_PAYLOAD_CONFIG_VERSION2) (prev : SERIAL_PORT_INFO) :
    ParseSerialInfo blob prev
      = some (RETURN_STATUS.RETURN_SUCCESS,
          ((cmdline_options blob.cmdline).foldl ParseSerialInfo_v2_body
            ({ Type_ := 1, BaseAddr := 0x3f8, Baud := 115200, RegWidth := 1,
               InputHertz := 1843200, UartPciAddr := 0 }, [0, 0, 0, 0, 0, 0])).1) := by
  have h1 : ¬ (blob.Version = UEFI_PAYLOAD_CONFIG_VERSION1) := by
    rw [hv]; exact version2_ne_version1
  simp only [ParseSerialInfo, GetUefiPayLoadConfig, hv, or_true, if_true]
  rw [if_neg (by rw [← hv]; exact h1)]
  rfl

/-- C16: on a V2 command line with no token beginning with `serial=`, and
whatever the output struct held before the call, `ParseSerialInfo` leaves
`BaseAddr = 0x3f8`, `Baud = 115200`, `RegWidth = 1`, `Type = 1`,
`InputHertz = 1843200`, `UartPciAddr = 0`. -/
theorem ParseSerialInfo_defaults (blob : UefiPayloadConfig)
    (hv : blob.Version = UEFI_PAYLOAD_CONFIG_VERSION2) (prev : SERIAL_PORT_INFO)
    (hno : ∀ o ∈ cmdline_options blob.cmdline, ¬ ("serial=".toList <+: o)) :
    ParseSerialInfo blob prev
      = some (RETURN_STATUS.RETURN_SUCCESS,
          { Type_ := 1, BaseAddr := 0x3f8, Baud := 115200, RegWidth := 1,
            InputHertz := 1843200, UartPciAddr := 0 }) := by
  rw [ParseSerialInfo_v2_eq blob hv, ParseSerialInfo_v2_fold_noop _ hno]

set_option maxRecDepth 100000 in
/-- Witness of C16 on the command line `mem=0,0x1000,1 Serial=9600`. -/
theorem ParseSerialInfo_defaults_witness :
    ParseSerialInfo (v2Blob "mem=0,0x1000,1 Serial=9600".toList) ⟨9, 9, 9, 9, 9, 9⟩
      = some (RETURN_STATUS.RETURN_SUCCESS,
          { Type_ := 1, BaseAddr := 0x3f8, Baud := 115200, RegWidth := 1,
            InputHertz := 1843200, UartPciAddr := 0 }) :=
  ParseSerialInfo_defaults (v2Blob "mem=0,0x1000,1 Serial=9600".toList) rfl ⟨9, 9, 9, 9, 9, 9⟩
    (by decide)

theorem toUInt32_of_lt (x : Nat) (h : x < 2 ^ 32) : toUInt32 x = x :=
  Nat.mod_eq_of_lt h

theorem ParseSerialInfo_v2_body_token (info : SERIAL_PORT_INFO)
    (vs : List (List Char)) (rest : List Char)
    (hvs : ∀ v ∈ vs, wellFormedValue v = true) (h32 : ∀ v ∈ vs, valueOf v < 2 ^ 32)
    (hk : 1 ≤ vs.length) (hk6 : vs.length ≤ 6)
    (hrest : peek rest = NUL ∨ isspace (peek rest) = true) :
    [ (ParseSerialInfo_v2_body (info, [0, 0, 0, 0, 0, 0])
          ("serial=".toList ++ (List.intercalate [','] vs ++ rest))).1.Baud,
      (ParseSerialInfo_v2_body (info, [0, 0, 0, 0, 0, 0])
          ("serial=".toList ++ (List.intercalate [','] vs ++ rest))).1.BaseAddr,
      (ParseSerialInfo_v2_body (info, [0, 0, 0, 0, 0, 0])
          ("serial=".toList ++ (List.intercalate [','] vs ++ rest))).1.RegWidth,
      (ParseSerialInfo_v2_body (info, [0, 0, 0, 0, 0, 0])
          ("serial=".toList ++ (List.intercalate [','] vs ++ rest))).1.Type_,
      (ParseSerialInfo_v2_body (info, [0, 0, 0, 0, 0, 0])
          ("serial=".toList ++ (List.intercalate [','] vs ++ rest))).1.InputHertz,
      (ParseSerialInfo_v2_body (info, [0, 0, 0, 0, 0, 0])
          ("serial=".toList ++ (List.intercalate [','] vs ++ rest))).1.UartPciAddr ]
      = vs.map valueOf ++
          [info.Baud, info.BaseAddr, info.RegWidth, info.Type_, info.InputHertz,
            info.UartPciAddr].drop vs.length := by
  have htok : "serial=".toList ++ (List.intercalate [','] vs ++ rest)
      = "serial".toList ++ '=' :: (List.intercalate [','] vs ++ rest) := rfl
  have hp : ¬ (strncmp ("serial=".toList ++ (List.intercalate [','] vs ++ rest))
      "serial=".toList 7 ≠ 0) := not_not.2 ((strncmp_serial_iff _).2 ⟨_, rfl⟩)
  have hints := cmdline_ints_token "serial".toList vs rest [0, 0, 0, 0, 0, 0] 6 (by decide)
    hvs hk (by exact_mod_cast hk6) hrest
  rw [← htok] at hints
  rw [ParseSerialInfo_v2_body, if_neg hp]
  simp only [hints]
  match vs, hk, hk6, h32 with
  | [v1], _, _, h32 =>
    simp [storeValues, toUInt32_of_lt _ (h32 v1 (by simp))]
  | [v1, v2], _, _, h32 =>
    simp [storeValues, toUInt32_of_lt _ (h32 v1 (by simp)), toUInt32_of_lt _ (h32 v2 (by simp))]
  | [v1, v2, v3], _, _, h32 =>
    simp [storeValues, toUInt32_of_lt _ (h32 v1 (by simp)), toUInt32_of_lt _ (h32 v2 (by simp)),
      toUInt32_of_lt _ (h32 v3 (by simp))]
  | [v1, v2, v3, v4], _, _, h32 =>
    simp [storeValues, toUInt32_of_lt _ (h32 v1 (by simp)), toUInt32_of_lt _ (h32 v2 (by simp)),
      toUInt32_of_lt _ (h32 v3 (by simp)), toUInt32_of_lt _ (h32 v4 (by simp))]
  | [v1, v2, v3, v4, v5], _, _, h32 =>
    simp [storeValues, toUInt32_of_lt _ (h32 v1 (by simp)), toUInt32_of_lt _ (h32 v2 (by simp)),
      toUInt32_of_lt _ (h32 v3 (by simp)), toUInt32_of_lt _ (h32 v4 (by simp)),
      toUInt32_of_lt _ (h32 v5 (by simp))]
  | [v1, v2, v3, v4, v5, v6], _, _, h32 =>
    simp [storeValues, toUInt32_of_lt _ (h32 v1 (by simp)), toUInt32_of_lt _ (h32 v2 (by simp)),
      toUInt32_of_lt _ (h32 v3 (by simp)), toUInt32_of_lt _ (h32 v4 (by simp)),
      toUInt32_of_lt _ (h32 v5 (by simp)), toUInt32_of_lt _ (h32 v6 (by simp))]

/-- C17: on a V2 command line whose only token beginning with `serial=` is
`serial=v1,...,vk` (`1 ≤ k ≤ 6`, well-formed values below `2 ^ 32`),
`ParseSerialInfo` assigns the values in the order Baud, BaseAddr, RegWidth,
Type, InputHertz, UartPciAddr: the first `k` of these fields hold the values of
`v1 .. vk`, the other `6 - k` keep the defaults 115200, 0x3f8, 1, 1, 1843200,
0 of those positions. -/
theorem ParseSerialInfo_fixed_order (blob : UefiPayloadConfig)
    (hv : blob.Version = UEFI_PAYLOAD_CONFIG_VERSION2) (prev : SERIAL_PORT_INFO)
    (l1 l2 : List (List Char)) (vs : List (List Char)) (rest : List Char)
    (hopts : cmdline_options blob.cmdline
      = l1 ++ ("serial=".toList ++ (List.intercalate [','] vs ++ rest)) :: l2)
    (hother : ∀ o ∈ l1 ++ l2, ¬ ("serial=".toList <+: o))
    (hvs : ∀ v ∈ vs, wellFormedValue v = true) (h32 : ∀ v ∈ vs, valueOf v < 2 ^ 32)
    (hk : 1 ≤ vs.length) (hk6 : vs.length ≤ 6)
    (hrest : peek rest = NUL ∨ isspace (peek rest) = true) :
    ∃ out : SERIAL_PORT_INFO,
      ParseSerialInfo blob prev = some (RETURN_STATUS.RETURN_SUCCESS, out) ∧
      [out.Baud, out.BaseAddr, out.RegWidth, out.Type_, out.InputHertz, out.UartPciAddr]
        = vs.map valueOf ++ [115200, 0x3f8, 1, 1, 1843200, 0].drop vs.length := by
  have h1 : ∀ o ∈ l1, ¬ ("serial=".toList <+: o) :=
    fun o ho => hother o (List.mem_append_left _ ho)
  have h2 : ∀ o ∈ l2, ¬ ("serial=".toList <+: o) :=
    fun o ho => hother o (List.mem_append_right _ ho)
  refine ⟨_, ParseSerialInfo_v2_eq blob hv prev, ?_⟩
  rw [hopts, List.foldl_append, List.foldl_cons, ParseSerialInfo_v2_fold_noop l1 h1,
    ParseSerialInfo_v2_fold_noop l2 h2]
  exact ParseSerialInfo_v2_body_token _ vs rest hvs h32 hk hk6 hrest

set_option maxRecDepth 100000 in
/-- Witness of C17 on the command line `serial=9600,0x2f8,4 quiet`. -/
theorem ParseSerialInfo_fixed_order_witness :
    ∃ out : SERIAL_PORT_INFO,
      ParseSerialInfo (v2Blob "serial=9600,0x2f8,4 quiet".toList) ⟨9, 9, 9, 9, 9, 9⟩
        = some (RETURN_STATUS.RETURN_SUCCESS, out) ∧
      [out.Baud, out.BaseAddr, out.RegWidth, out.Type_, out.InputHertz, out.UartPciAddr]
        = ["9600".toList, "0x2f8".toList, "4".toList].map valueOf
            ++ [115200, 0x3f8, 1, 1, 1843200, 0].drop 3 :=
  ParseSerialInfo_fixed_order (v2Blob "serial=9600,0x2f8,4 quiet".toList) rfl
    ⟨9, 9, 9, 9, 9, 9⟩ [] ["quiet".toList] ["9600".toList, "0x2f8".toList, "4".toList]
    " quiet".toList (by decide) (by decide) (by decide) (by decide) (by decide) (by decide)
    (by decide)

/-! ## Theorems: unrecognized tokens -/

set_option maxRecDepth 100000 in
/-- C19: on a V2 command line in which no token begins with `mem=`,
`ParseMemoryInfo` emits no range; on one in which no token begins with
`ACPI20=` or `SMBIOS=`, `ParseSystemTable` leaves the four table fields as
they were before the call.  So `"MEM=0,0x1000,1"` and `"memory=0,0x1000,1"`
emit nothing, and `"acpi20=0xE0000"` and `"smbios=1,2"` change nothing. -/
theorem unrecognized_tokens_no_effect (blob : UefiPayloadConfig)
    (hv : blob.Version = UEFI_PAYLOAD_CONFIG_VERSION2) (info : SYSTEM_TABLE_INFO) :
    ((∀ o ∈ cmdline_options blob.cmdline, ¬ ("mem=".toList <+: o)) →
      ParseMemoryInfo blob = some (RETURN_STATUS.RETURN_SUCCESS, [])) ∧
    ((∀ o ∈ cmdline_options blob.cmdline,
        ¬ ("ACPI20=".toList <+: o) ∧ ¬ ("SMBIOS=".toList <+: o)) →
      ParseSystemTable blob info = some (RETURN_STATUS.RETURN_SUCCESS, info)) ∧
    ParseMemoryInfo (v2Blob "MEM=0,0x1000,1".toList)
      = some (RETURN_STATUS.RETURN_SUCCESS, []) ∧
    ParseMemoryInfo (v2Blob "memory=0,0x1000,1".toList)
      = some (RETURN_STATUS.RETURN_SUCCESS, []) ∧
    ParseSystemTable (v2Blob "acpi20=0xE0000".toList) info
      = some (RETURN_STATUS.RETURN_SUCCESS, info) ∧
    ParseSystemTable (v2Blob "smbios=1,2".toList) info
      = some (RETURN_STATUS.RETURN_SUCCESS, info) := by
  have hsys : ∀ (bl : UefiPayloadConfig), bl.Version = UEFI_PAYLOAD_CONFIG_VERSION2 →
      (∀ o ∈ cmdline_options bl.cmdline,
        ¬ ("ACPI20=".toList <+: o) ∧ ¬ ("SMBIOS=".toList <+: o)) →
      ParseSystemTable bl info = some (RETURN_STATUS.RETURN_SUCCESS, info) := by
    intro bl hbl hno
    rw [ParseSystemTable_v2_eq bl hbl, ParseSystemTable_v2_fold_noop _ hno]
  refine ⟨?_, hsys blob hv, by decide, by decide, ?_, ?_⟩
  · intro hno
    rw [ParseMemoryInfo_v2_eq blob hv, filterMap_memRangeOf_nil _ hno]
  · exact hsys (v2Blob "acpi20=0xE0000".toList) rfl (by decide)
  · exact hsys (v2Blob "smbios=1,2".toList) rfl (by decide)

set_option maxRecDepth 100000 in
/-- Witness of C19 on the command line `MEM=0,0x1000,1 acpi20=0xE0000`. -/
theorem unrecognized_tokens_no_effect_witness :
    ParseMemoryInfo (v2Blob "MEM=0,0x1000,1 acpi20=0xE0000".toList)
      = some (RETURN_STATUS.RETURN_SUCCESS, []) ∧
    ParseSystemTable (v2Blob "MEM=0,0x1000,1 acpi20=0xE0000".toList) ⟨1, 2, 3, 4⟩
      = some (RETURN_STATUS.RETURN_SUCCESS, ⟨1, 2, 3, 4⟩) :=
  ⟨(unrecognized_tokens_no_effect (v2Blob "MEM=0,0x1000,1 acpi20=0xE0000".toList) rfl
      ⟨1, 2, 3, 4⟩).1 (by decide),
   (unrecognized_tokens_no_effect (v2Blob "MEM=0,0x1000,1 acpi20=0xE0000".toList) rfl
      ⟨1, 2, 3, 4⟩).2.1 (by decide)⟩

/-! ## Theorems: reading past the token -/

set_option maxRecDepth 100000 in
/-- C21 (failing input): the buffers `"mem=1, 2,3"` and `"mem=1, "` agree up to
and including their first whitespace, yet `cmdline_ints` with `max = 3` returns
3 with `args = [1, 2, 3]` on the first and 2 with `args = [1, 0, c]` on the
second (as on `"mem=1,"` alone): after the comma the integer lexer skips the
blank and reads the next token.  Accordingly `ParseMemoryInfo` on
`"mem=1, 2,3"` emits one range, the normalization of `(1, 2, 3)`. -/
theorem cmdline_ints_reads_past_whitespace :
    ("mem=1, 2,3".toList.take 7 = "mem=1, ".toList.take 7 ∧
      cmdline_ints_skip "mem=1, 2,3".toList = some "1, 2,3".toList ∧
      isspace ("mem=1, 2,3".toList.getD 6 NUL) = true ∧
      ∀ c ∈ "mem=1, 2,3".toList.take 6, isspace c = false ∧ c ≠ NUL) ∧
    (∀ a b c : Nat, cmdline_ints "mem=1, 2,3".toList [a, b, c] 3 = (3, [1, 2, 3])) ∧
    (∀ a b c : Nat, cmdline_ints "mem=1, ".toList [a, b, c] 3 = (2, [1, 0, c])) ∧
    (∀ a b c : Nat, cmdline_ints "mem=1,".toList [a, b, c] 3 = (2, [1, 0, c])) ∧
    ParseMemoryInfo (v2Blob "mem=1, 2,3".toList)
      = some (RETURN_STATUS.RETURN_SUCCESS,
          [{ Base := 0, Size := 0x1000, Type_ := 3, Flag := 0 }]) := by
  refine ⟨by decide, fun _ _ _ => rfl, fun _ _ _ => rfl, fun _ _ _ => rfl, by decide⟩

set_option maxRecDepth 100000 in
/-- C11 (failing input): the command line `"mem=1, 2,3"` has the two tokens
`"mem=1,"` and `"2,3"`.  The token `"mem=1,"` begins with `mem=` and carries 2
values, not 3 (`cmdline_ints` on it returns 2), and `"2,3"` does not begin with
`mem=`, so token by token nothing is to be emitted; yet `ParseMemoryInfo`
calls the callback once, with the normalization of `(1, 2, 3)`, because
`cmdline_ints` is run on the buffer from the token start and reads past the
blank.  On `"mem=1,2 mem=0,0x1000,1"`, where no value list runs into a blank,
exactly the one range of the claim is emitted. -/
theorem ParseMemoryInfo_v2_emits_past_token :
    cmdline_tokens "mem=1, 2,3".toList = ["mem=1,".toList, "2,3".toList] ∧
    (∀ a b c : Nat, (cmdline_ints "mem=1,".toList [a, b, c] 3).1 = 2) ∧
    (cmdline_tokens "mem=1, 2,3".toList).filterMap memRangeOf = [] ∧
    ParseMemoryInfo (v2Blob "mem=1, 2,3".toList)
      = some (RETURN_STATUS.RETURN_SUCCESS,
          [AddMemoryRange 1 2 (toInt32 3)]) ∧
    AddMemoryRange 1 2 (toInt32 3) = { Base := 0, Size := 0x1000, Type_ := 3, Flag := 0 } ∧
    ParseMemoryInfo (v2Blob "mem=1,2 mem=0,0x1000,1".toList)
      = some (RETURN_STATUS.RETURN_SUCCESS,
          [{ Base := 0, Size := 0x1000, Type_ := 1, Flag := 0 }]) := by
  refine ⟨by decide, fun _ _ _ => rfl, by decide, by decide, by decide, by decide⟩

end LbParse
